import Mathlib

/-!
# storm-wrapper: a shallow embedding and its verified properties

Embedding of `storm-wrapper.go` (package `stormwrapper`) and `tools/tools.go`
(function `FillStruct`).

* Go values are modelled with their dynamic type, as far as package `reflect`
  observes them in the two source files.
* The storage engine (`storm`, `os.Remove`) is an external collaborator: it is a
  parameter `Engine σ` of every operation, with an arbitrary state `σ`.
* The broadcast primitive (`bcast`) is modelled sequentially: a group records the
  values handed to `Send` and the inbox of each member.
* A Go panic is an explicit outcome.  Mutexes are not modelled (one thread).
-/

namespace StormWrapper

/-! ## Outcomes of a Go call -/

/-- Result of a Go call: a normal return, or a run-time panic with its message. -/
inductive Outcome (α : Type) where
  | ret (a : α)
  | panicked (msg : String)
  deriving DecidableEq

/-! ## Go types as seen by package reflect -/

/-- Subset of `reflect.Kind`. -/
inductive Kind where
  | Invalid | Bool | Int | String | Array | Chan | Interface | Map | Ptr | Slice | Struct
  deriving DecidableEq, Repr

mutual
/-- Go types.  `named pkg name u` is a defined type `pkg.name` with underlying type `u`. -/
inductive GoType where
  | bool
  | int
  | string
  | iface
  | named (pkg name : String) (underlying : GoType)
  | ptr (elem : GoType)
  | slice (elem : GoType)
  | array (len : Nat) (elem : GoType)
  | map (key elem : GoType)
  | chan (elem : GoType)
  | struct (fields : FieldList)
/-- Field declarations of a struct type: name, the exported bit reflect keeps with
the name, and the field's type. -/
inductive FieldList where
  | nil
  | cons (name : String) (exported : Bool) (typ : GoType) (rest : FieldList)
end

deriving instance DecidableEq for GoType, FieldList

mutual
/-- Text of `reflect.Type.String()`. -/
def Type_String : GoType → String
  | .bool => "bool"
  | .int => "int"
  | .string => "string"
  | .iface => "interface \x7b\x7d"
  | .named pkg name _ => pkg ++ "." ++ name
  | .ptr e => "*" ++ Type_String e
  | .slice e => "[]" ++ Type_String e
  | .array n e => "[" ++ toString n ++ "]" ++ Type_String e
  | .map k e => "map[" ++ Type_String k ++ "]" ++ Type_String e
  | .chan e => "chan " ++ Type_String e
  | .struct .nil => "struct \x7b\x7d"
  | .struct fs => "struct \x7b" ++ Fields_String fs ++ " \x7d"
/-- Field part of the text of a struct type: ` A int; B string`. -/
def Fields_String : FieldList → String
  | .nil => ""
  | .cons n _ t .nil => " " ++ n ++ " " ++ Type_String t
  | .cons n _ t rest => " " ++ n ++ " " ++ Type_String t ++ ";" ++ Fields_String rest
end

/-- Result of `reflect.Type.Name()`: the name of a defined or predeclared type, empty
for every unnamed type. -/
def Type_Name : GoType → String
  | .bool => "bool"
  | .int => "int"
  | .string => "string"
  | .named _ name _ => name
  | _ => ""

/-- Result of `reflect.Type.Kind()`. -/
def Type_Kind : GoType → Kind
  | .bool => .Bool
  | .int => .Int
  | .string => .String
  | .iface => .Interface
  | .named _ _ u => Type_Kind u
  | .ptr _ => .Ptr
  | .slice _ => .Slice
  | .array _ _ => .Array
  | .map _ _ => .Map
  | .chan _ => .Chan
  | .struct _ => .Struct

/-- Result of `reflect.Type.Elem()`: defined for Array, Chan, Map, Ptr and Slice kinds;
`none` stands for the panic "reflect: Elem of invalid type". -/
def Type_Elem : GoType → Option GoType
  | .named _ _ u => Type_Elem u
  | .ptr e => some e
  | .slice e => some e
  | .array _ e => some e
  | .map _ e => some e
  | .chan e => some e
  | _ => none

/-- Field declarations of a type of kind Struct (through defined types). -/
def Type_fields : GoType → FieldList
  | .named _ _ u => Type_fields u
  | .struct fs => fs
  | _ => .nil

/-! ## Go values -/

/-- Go values held in an `interface{}`: `nil` is the nil interface; a pointer carries
its element type and its target (`none` for a nil pointer); a struct carries its type
and the values of its fields in declaration order. -/
inductive GoValue where
  | nil
  | bool (b : Bool)
  | int (n : Int)
  | str (s : String)
  | struct (t : GoType) (fields : List GoValue)
  | ptr (elem : GoType) (target : Option GoValue)
  | slice (elem : GoType) (elems : Option (List GoValue))

/-- Result of `reflect.TypeOf`: the dynamic type, `none` for the nil interface. -/
def reflect_TypeOf : GoValue → Option GoType
  | .nil => none
  | .bool _ => some .bool
  | .int _ => some .int
  | .str _ => some .string
  | .struct t _ => some t
  | .ptr e _ => some (.ptr e)
  | .slice e _ => some (.slice e)

/-- A `reflect.Value`: `none` is the zero (invalid) Value, otherwise the type under
which the value is viewed and the value. -/
abbrev RValue := Option (GoType × GoValue)

/-- Result of `reflect.ValueOf`. -/
def reflect_ValueOf (x : GoValue) : RValue :=
  match reflect_TypeOf x with
  | none => none
  | some t => some (t, x)

/-- Result of `reflect.Value.Kind()`: Invalid for the zero Value. -/
def Value_Kind : RValue → Kind
  | none => .Invalid
  | some (t, _) => Type_Kind t

/-- Result of `reflect.Value.Elem()` on a Value of kind Ptr: the zero Value for a nil
pointer, else the target viewed under the element type. -/
def Value_Elem : RValue → RValue
  | some (_, .ptr e (some v)) => some (e, v)
  | _ => none

/-- Result of `reflect.Value.Type().Name()` on a valid Value. -/
def Value_TypeName : RValue → String
  | none => ""
  | some (t, _) => Type_Name t

mutual
/-- Part `deepValueEqual` of `reflect.DeepEqual`, for two values of one type: scalars
by value, structs field by field, pointers by their targets, slices by nilness and
element by element. -/
def deepValueEqual : GoValue → GoValue → Bool
  | .nil, .nil => true
  | .bool a, .bool b => a == b
  | .int a, .int b => a == b
  | .str a, .str b => a == b
  | .struct t1 f1, .struct t2 f2 => decide (t1 = t2) && deepListEqual f1 f2
  | .ptr e1 none, .ptr e2 none => decide (e1 = e2)
  | .ptr e1 (some a), .ptr e2 (some b) => decide (e1 = e2) && deepValueEqual a b
  | .slice e1 none, .slice e2 none => decide (e1 = e2)
  | .slice e1 (some a), .slice e2 (some b) => decide (e1 = e2) && deepListEqual a b
  | _, _ => false
/-- Element-wise `deepValueEqual` of two sequences of the same length. -/
def deepListEqual : List GoValue → List GoValue → Bool
  | [], [] => true
  | a :: as, b :: bs => deepValueEqual a b && deepListEqual as bs
  | _, _ => false
end

/-- Result of `reflect.DeepEqual(x, y)`: two nil interfaces are equal, a nil interface
equals nothing else, values of different dynamic types are never equal, values of one
type are compared by `deepValueEqual`. -/
def reflect_DeepEqual (x y : GoValue) : Bool :=
  match reflect_TypeOf x, reflect_TypeOf y with
  | none, none => true
  | none, some _ => false
  | some _, none => false
  | some t1, some t2 => if t1 ≠ t2 then false else deepValueEqual x y

/-! ## strings.Split with separator "." -/

/-- The pieces of a character sequence between the dots. -/
def splitDot : List Char → List (List Char)
  | [] => [[]]
  | c :: cs =>
    if c = '.' then [] :: splitDot cs
    else
      match splitDot cs with
      | [] => [[c]]
      | seg :: rest => (c :: seg) :: rest

/-- Result of `strings.Split(s, ".")`. -/
def strings_Split (s : String) : List String :=
  (splitDot s.toList).map String.mk

/-- Expression `ia[len(ia)-1]` for `ia := strings.Split(s, ".")`. -/
def lastSegment (s : String) : String :=
  (strings_Split s).getLastD ""

/-! ## External collaborators -/

/-- A `*storm.DB` that is not nil, by the identity of its allocation. -/
abbrev Handle := Nat

/-- A Go `error` that is not nil, by its message. -/
abbrev Err := String

/-- Method calls the facade makes on a `*storm.DB`: `Init`, `Save`, `One`, `Find`,
`All`, `DeleteStruct`, and `Select(q.Re(fieldName, regex)).Find(to)` as one call. -/
inductive EngineCall where
  | Init (data : GoValue)
  | Save (data : GoValue)
  | One (fieldName : String) (value dest : GoValue)
  | Find (fieldName : String) (value dest : GoValue)
  | All (dest : GoValue)
  | SelectReFind (fieldName regex : String) (dest : GoValue)
  | DeleteStruct (item : GoValue)

/-- The storage engine and the file system, with state `σ`.

* `Open path fresh w` is `storm.Open(path)`: it returns the error, if any; an open
  without error yields the newly allocated, non-nil handle `fresh`, an open with an
  error yields the nil handle (spec §6: `open(path) -> handle | error`).
* `call dbc c w` is the method call `c` on the receiver `dbc`, which may be nil
  (`none`); it returns the method's error or panics.
* `osRemove path w` is `os.Remove(path)`, whose error the caller discards. -/
structure Engine (σ : Type) where
  Open : String → Handle → σ → Option Err × σ
  call : Option Handle → EngineCall → σ → Outcome (Option Err × σ)
  osRemove : String → σ → σ

/-- A `*bcast.Member`: its identity and the values it has been handed, oldest first. -/
structure Member where
  id : Nat
  inbox : List GoValue

/-- A `bcast.Group`: how many distribution loops (`Broadcast`) were started on it, its
members in joining order, and the values handed to `Send`, oldest first. -/
structure Group where
  loops : Nat
  members : List Member
  sent : List GoValue

/-- Modelled from the spec: `bcast.NewGroup()` of the broadcast collaborator (§6),
a group without members. -/
def bcast_NewGroup : Group :=
  { loops := 0, members := [], sent := [] }

/-- Modelled from the spec: `group.Send(val)` of the broadcast collaborator (§3, §6):
every current member receives the value, after the values sent before. -/
def Group_Send (g : Group) (val : GoValue) : Group :=
  { g with
    members := g.members.map (fun m => { m with inbox := m.inbox ++ [val] }),
    sent := g.sent ++ [val] }

/-- Modelled from the spec: `group.Join()` of the broadcast collaborator (§3, §6):
a new member with an empty inbox (no replay of earlier values). -/
def Group_Join (g : Group) (fresh : Nat) : Group :=
  { g with members := g.members ++ [{ id := fresh, inbox := [] }] }

/-- Calls that leave the process, in the order they happened. -/
inductive Event where
  | opened (path : String) (ndb : Option Handle)
  | logged (err : Err)
  | called (dbc : Option Handle) (c : EngineCall)
  | removed (path : String)

/-- State outside the `Db` object: the engine's state, the objects allocated by the
broadcast collaborator, the allocation counters and the record of external calls. -/
structure Env (σ : Type) where
  world : σ
  groups : Nat → Group
  nextGroup : Nat
  nextMember : Nat
  nextHandle : Nat
  trace : List Event

/-! ## The store -/

/-- The struct `Db`: fields `path`, `dbmap` (a present entry may hold the nil handle)
and `bucketsubscriptions` (group pointers), together with the environment the object
lives in.  The fields `db` and `memory` are never read or written. -/
structure Db (σ : Type) where
  path : String
  dbmap : String → Option (Option Handle)
  bucketsubscriptions : String → Option Nat
  env : Env σ

/-- Map assignment `m[k] = v`. -/
def mapSet {α : Type} (m : String → Option α) (k : String) (v : α) : String → Option α :=
  fun k2 => if k2 = k then some v else m k2

/-- Update of one allocated group. -/
def setGroup (groups : Nat → Group) (g : Nat) (val : Group) : Nat → Group :=
  fun g2 => if g2 = g then val else groups g2

/-- Function `New`: a store at `path` with two empty maps. -/
def New {σ : Type} (path : String) (env : Env σ) : Db σ :=
  { path := path, dbmap := fun _ => none, bucketsubscriptions := fun _ => none, env := env }

/-- Lines 188-202 of `GetDbForValue`: return the cached entry for `name`, or open
`path/name.db`, log an error, cache the result (nil included) and return it. -/
def openCached {σ : Type} (E : Engine σ) (name : String) (db : Db σ) :
    Option Handle × Db σ :=
  match db.dbmap name with
  | some val => (val, db)
  | none =>
    let file := db.path ++ "/" ++ name ++ ".db"
    match E.Open file db.env.nextHandle db.env.world with
    | (none, w) =>
      let ndb : Option Handle := some db.env.nextHandle
      (ndb, { db with
        dbmap := mapSet db.dbmap name ndb,
        env := { db.env with
          world := w, nextHandle := db.env.nextHandle + 1,
          trace := db.env.trace ++ [Event.opened file ndb] } })
    | (some err, w) =>
      (none, { db with
        dbmap := mapSet db.dbmap name none,
        env := { db.env with
          world := w,
          trace := db.env.trace ++ [Event.opened file none, Event.logged err] } })

/-- Lines 172-186 of `GetDbForValue`: the bucket identifier derived from the value.
It is the last dot-separated piece of the text of the pointed-to type; when that is
empty, the name of the type of the dereferenced value, and the inner `none` is the
`return nil` for a value that is not a struct.  The call panics for the nil interface
and for a type without element type. -/
def bucketIdentifier (value : GoValue) : Outcome (Option String) :=
  match reflect_TypeOf value with
  | none => .panicked "invalid memory address or nil pointer dereference"
  | some t =>
    match Type_Elem t with
    | none => .panicked "reflect: Elem of invalid type"
    | some i =>
      let name := lastSegment (Type_String i)
      if name = "" then
        let s := reflect_ValueOf value
        let s := if Value_Kind s = Kind.Ptr then Value_Elem s else s
        if Value_Kind s ≠ Kind.Struct then .ret none
        else .ret (some (Value_TypeName s))
      else .ret (some name)

/-- Method `Db.GetDbForValue`. -/
def GetDbForValue {σ : Type} (E : Engine σ) (value : GoValue) (db : Db σ) :
    Outcome (Option Handle × Db σ) :=
  match bucketIdentifier value with
  | .panicked msg => .panicked msg
  | .ret none => .ret (none, db)
  | .ret (some name) => .ret (openCached E name db)

/-- The facade's pattern `dbc := db.GetDbForValue(x); err := dbc.m(...)`: resolve the
bucket of `x`, then make the method call `c` on the handle. -/
def callOn {σ : Type} (E : Engine σ) (x : GoValue) (c : EngineCall) (db : Db σ) :
    Outcome (Option Handle × Option Err × Db σ) :=
  match GetDbForValue E x db with
  | .panicked msg => .panicked msg
  | .ret (dbc, db1) =>
    match E.call dbc c db1.env.world with
    | .panicked msg => .panicked msg
    | .ret (err, w) =>
      .ret (dbc, err, { db1 with env := { db1.env with
        world := w, trace := db1.env.trace ++ [Event.called dbc c] } })

/-- Method `Db.Init`: the engine's error is discarded. -/
def Init {σ : Type} (E : Engine σ) (data : GoValue) (db : Db σ) : Outcome (Db σ) :=
  match callOn E data (.Init data) db with
  | .panicked msg => .panicked msg
  | .ret (_, _, db1) => .ret db1

/-- Lines 56-63 of `Save`: the name under which the saved value is broadcast, `none`
for the `return nil` taken when the dereferenced value is not a struct. -/
def broadcastName (data : GoValue) : Option String :=
  let s := reflect_ValueOf data
  let s := if Value_Kind s = Kind.Ptr then Value_Elem s else s
  if Value_Kind s ≠ Kind.Struct then none
  else some (Value_TypeName s)

/-- Lines 67-78 of `Save`: send `data` to the group registered under `name`, if any. -/
def publish {σ : Type} (name : String) (data : GoValue) (db : Db σ) : Db σ :=
  match db.bucketsubscriptions name with
  | some group =>
    { db with env := { db.env with
        groups := setGroup db.env.groups group (Group_Send (db.env.groups group) data) } }
  | none => db

/-- Method `Db.Save`. -/
def Save {σ : Type} (E : Engine σ) (data : GoValue) (db : Db σ) :
    Outcome (Option Err × Db σ) :=
  match callOn E data (.Save data) db with
  | .panicked msg => .panicked msg
  | .ret (_, some err, db1) => .ret (some err, db1)
  | .ret (_, none, db1) =>
    match broadcastName data with
    | none => .ret (none, db1)
    | some name => .ret (none, publish name data db1)

/-- The methods that return the engine's error as it is. -/
def passThrough {σ : Type} (E : Engine σ) (x : GoValue) (c : EngineCall) (db : Db σ) :
    Outcome (Option Err × Db σ) :=
  match callOn E x c db with
  | .panicked msg => .panicked msg
  | .ret (_, err, db1) => .ret (err, db1)

/-- Method `Db.Get`. -/
def Get {σ : Type} (E : Engine σ) (fieldName : String) (value dest : GoValue) (db : Db σ) :
    Outcome (Option Err × Db σ) :=
  passThrough E dest (.One fieldName value dest) db

/-- Method `Db.GetFilter`. -/
def GetFilter {σ : Type} (E : Engine σ) (fieldName : String) (value dest : GoValue)
    (db : Db σ) : Outcome (Option Err × Db σ) :=
  passThrough E dest (.Find fieldName value dest) db

/-- Method `Db.GetAll`. -/
def GetAll {σ : Type} (E : Engine σ) (dest : GoValue) (db : Db σ) :
    Outcome (Option Err × Db σ) :=
  passThrough E dest (.All dest) db

/-- Method `Db.GetRegex`. -/
def GetRegex {σ : Type} (E : Engine σ) (fieldName regex : String) (dest : GoValue)
    (db : Db σ) : Outcome (Option Err × Db σ) :=
  passThrough E dest (.SelectReFind fieldName regex dest) db

/-- Method `Db.Remove`. -/
def Remove {σ : Type} (E : Engine σ) (item : GoValue) (db : Db σ) :
    Outcome (Option Err × Db σ) :=
  passThrough E item (.DeleteStruct item) db

/-- The file `Db.Drop` removes. -/
def dropFile (path bucketName : String) : String :=
  path ++ "/" ++ bucketName ++ ".db"

/-- Method `Db.Drop`. -/
def Drop {σ : Type} (E : Engine σ) (bucketName : String) (db : Db σ) : Db σ :=
  { db with env := { db.env with
      world := E.osRemove (dropFile db.path bucketName) db.env.world,
      trace := db.env.trace ++ [Event.removed (dropFile db.path bucketName)] } }

/-- Method `Db.SubscribeChanges`: the returned member, by identity, and the store. -/
def SubscribeChanges {σ : Type} (bucketName : String) (db : Db σ) : Nat × Db σ :=
  match db.bucketsubscriptions bucketName with
  | some group =>
    (db.env.nextMember, { db with env := { db.env with
      groups := setGroup db.env.groups group
        (Group_Join (db.env.groups group) db.env.nextMember),
      nextMember := db.env.nextMember + 1 } })
  | none =>
    let group := db.env.nextGroup
    let started : Group := { bcast_NewGroup with loops := bcast_NewGroup.loops + 1 }
    (db.env.nextMember, { db with
      bucketsubscriptions := mapSet db.bucketsubscriptions bucketName group,
      env := { db.env with
        groups := setGroup db.env.groups group (Group_Join started db.env.nextMember),
        nextGroup := db.env.nextGroup + 1,
        nextMember := db.env.nextMember + 1 } })

/-- Method `Db.SubscribeChanges` called `k` times in a row: the members returned, in
order, and the store. -/
def subscribeTimes {σ : Type} (bucketName : String) : Nat → Db σ → List Nat × Db σ
  | 0, db => ([], db)
  | k + 1, db =>
    let r := SubscribeChanges bucketName db
    let rs := subscribeTimes bucketName k r.2
    (r.1 :: rs.1, rs.2)

/-- Method `Db.Save` called on each value in turn, as long as it returns nil. -/
def saveAll {σ : Type} (E : Engine σ) : List GoValue → Db σ → Outcome (Option Err × Db σ)
  | [], db => .ret (none, db)
  | data :: rest, db =>
    match Save E data db with
    | .ret (none, db1) => saveAll E rest db1
    | other => other

/-- The inbox of a member of the group at `group`. -/
def inboxOf {σ : Type} (db : Db σ) (group member : Nat) : Option (List GoValue) :=
  ((db.env.groups group).members.find? (fun m => m.id = member)).map (fun m => m.inbox)

/-! ## A reference engine -/

/-- State of the reference engine: the storage files with their records, and the file
each handle was opened on. -/
structure Files where
  files : List (String × List GoValue)
  handles : List (Handle × String)

/-- Records visible through a handle: those of the file it was opened on. -/
def Files.visible (w : Files) (h : Handle) : List GoValue :=
  match w.handles.lookup h with
  | none => []
  | some file => (w.files.lookup file).getD []

/-- Append a record to the file a handle was opened on. -/
def Files.append (w : Files) (h : Handle) (rec : GoValue) : Files :=
  match w.handles.lookup h with
  | none => w
  | some file =>
    { w with files := w.files.map (fun f => if f.1 = file then (f.1, f.2 ++ [rec]) else f) }

/-- Modelled from the spec: a storage engine collaborator with the interface of §6.
`Open` fails on the paths `openErr` names and otherwise creates the file when it is
missing; `Save` fails on the records `saveErr` names and otherwise appends the record;
`os.Remove` deletes the file.  Every method reads a field of its receiver, so a call
on the nil handle panics, as a Go method that dereferences a nil pointer does. -/
def refEngine (openErr : String → Option Err) (saveErr : GoValue → Option Err) :
    Engine Files :=
  { Open := fun file fresh w =>
      match openErr file with
      | some e => (some e, w)
      | none =>
        (none, { files := if (w.files.lookup file).isSome then w.files
                          else (file, []) :: w.files,
                 handles := (fresh, file) :: w.handles })
    call := fun dbc c w =>
      match dbc, c with
      | none, _ => .panicked "invalid memory address or nil pointer dereference"
      | some h, .Save data =>
        match saveErr data with
        | some e => .ret (some e, w)
        | none => .ret (none, w.append h data)
      | some _, _ => .ret (none, w)
    osRemove := fun file w => { w with files := w.files.filter (fun f => f.1 ≠ file) } }

/-- An environment in which nothing has happened yet. -/
def emptyEnv : Env Files :=
  { world := { files := [], handles := [] }, groups := fun _ => bcast_NewGroup,
    nextGroup := 0, nextMember := 0, nextHandle := 0, trace := [] }

/-- The type `type User struct { Name string }` of package `main`. -/
def tUser : GoType :=
  .named "main" "User" (.struct (.cons "Name" true .string .nil))

/-- The value `&User{Name: name}`. -/
def userPtr (name : String) : GoValue :=
  .ptr tUser (some (.struct tUser [.str name]))

end StormWrapper

namespace Tools

open StormWrapper

/-- Search of `FieldByName` through the declared fields, counting positions. -/
def findField : FieldList → String → Nat → Option (Nat × Bool × GoType)
  | .nil, _, _ => none
  | .cons n ex t rest, name, i =>
    if n = name then some (i, ex, t) else findField rest name (i + 1)

/-- Result of `reflect.Value.FieldByName(name)` on a struct without embedded fields:
position, exported bit and type of the first field of that name; `none` (the zero
Value) when the name is empty or no field has it. -/
def fieldByName (fs : FieldList) (name : String) : Option (Nat × Bool × GoType) :=
  if name = "" then none else findField fs name 0

/-- The loop of `FillStruct` over the entries of the map, in the order `range` yields
them, on a struct viewed under type `t` with field values `vals`.  `IsValid` is the
presence of the field, `CanSet` its exported bit (the struct is addressable),
`reflect.ValueOf(value).Type()` panics for a nil value. -/
def fillLoop (t : GoType) : List (String × GoValue) → List GoValue →
    Outcome (Option Err × List GoValue)
  | [], vals => .ret (none, vals)
  | (name, value) :: rest, vals =>
    match fieldByName (Type_fields t) name with
    | none => .ret (some ("No such field: " ++ name ++ " in obj"), vals)
    | some (i, exported, ft) =>
      if exported = false then .ret (some ("Cannot set " ++ name ++ " field value"), vals)
      else
        match reflect_TypeOf value with
        | none => .panicked "reflect: call of reflect.Value.Type on zero Value"
        | some vt =>
          if ft ≠ vt then .ret (some "Provided value type didn't match obj field type", vals)
          else fillLoop t rest (vals.set i value)

/-- Function `FillStruct`: the returned error and the value `s` afterwards (the
pointer with its updated target). -/
def FillStruct (m : List (String × GoValue)) (s : GoValue) : Outcome (Option Err × GoValue) :=
  match reflect_ValueOf s with
  | none => .panicked "reflect: call of reflect.Value.Elem on zero Value"
  | some (ts, _) =>
    if Type_Kind ts ≠ Kind.Ptr then .panicked "reflect: call of reflect.Value.Elem on non-pointer Value"
    else
      match m with
      | [] => .ret (none, s)
      | _ :: _ =>
        match Value_Elem (some (ts, s)) with
        | none => .panicked "reflect: call of reflect.Value.FieldByName on zero Value"
        | some (e, .struct t vals) =>
          if Type_Kind e ≠ Kind.Struct then
            .panicked "reflect: call of reflect.Value.FieldByName on non-struct Value"
          else
            match fillLoop e m vals with
            | .panicked msg => .panicked msg
            | .ret (err, vals2) => .ret (err, .ptr e (some (.struct t vals2)))
        | some _ => .panicked "reflect: call of reflect.Value.FieldByName on non-struct Value"

/-- Number of declared fields. -/
def Fields_length : FieldList → Nat
  | .nil => 0
  | .cons _ _ _ rest => Fields_length rest + 1

/-- The entry `name: value` of the map names an existing, settable field of the
struct type `t` whose type is the dynamic type of the value. -/
def entryOk (t : GoType) (x : String × GoValue) : Prop :=
  ∃ i ft, fieldByName (Type_fields t) x.1 = some (i, true, ft) ∧ reflect_TypeOf x.2 = some ft

/-- The type `type Person struct { Name string; Age int; secret string }`. -/
def tPerson : GoType :=
  .named "main" "Person"
    (.struct (.cons "Name" true .string (.cons "Age" true .int (.cons "secret" false .string .nil))))

/-- The value `&Person{Name: "ann", Age: 30, secret: "x"}`. -/
def personPtr : GoValue :=
  .ptr tPerson (some (.struct tPerson [.str "ann", .int 30, .str "x"]))

end Tools

namespace StormWrapper

/-! ## Concrete stores used in the examples -/

/-- Reference engine on which every open and every save succeeds. -/
def okEngine : Engine Files :=
  refEngine (fun _ => none) (fun _ => none)

/-- Reference engine on which every open fails. -/
def noOpenEngine : Engine Files :=
  refEngine (fun _ => some "open failed") (fun _ => none)

/-- Reference engine on which every save fails. -/
def noSaveEngine : Engine Files :=
  refEngine (fun _ => none) (fun _ => some "save failed")

/-- A new store at `/data`. -/
def freshDb : Db Files :=
  New "/data" emptyEnv

/-- The value has a dynamic type with an element type: the condition under which
`reflect.TypeOf(value).Elem()` does not panic. -/
def hasElem (value : GoValue) : Prop :=
  ∃ t i, reflect_TypeOf value = some t ∧ Type_Elem t = some i

/-- The type `type Item struct { Id int }` of package `main`. -/
def tItem : GoType :=
  .named "main" "Item" (.struct (.cons "Id" true .int .nil))

/-- The value `&Item{Id: id}`. -/
def itemPtr (id : Int) : GoValue :=
  .ptr tItem (some (.struct tItem [.int id]))

/-- The value `&[]User{}`, as handed to `GetAll`. -/
def usersPtr : GoValue :=
  .ptr (.slice tUser) (some (.slice tUser (some [])))

/-- Invariant of the handle cache: every non-nil handle in `dbmap` was allocated
earlier, and is held under one name only. -/
def CacheInv {σ : Type} (db : Db σ) : Prop :=
  (∀ n h, db.dbmap n = some (some h) → h < db.env.nextHandle) ∧
  (∀ n1 n2 h, db.dbmap n1 = some (some h) → db.dbmap n2 = some (some h) → n1 = n2)

/-- A new store at `/data` on which `SubscribeChanges("User")` was called once. -/
def subscribedDb : Db Files :=
  (SubscribeChanges "User" freshDb).2

/-- Identities of the members of the group at `group`, in joining order. -/
def memberIds {σ : Type} (db : Db σ) (group : Nat) : List Nat :=
  (db.env.groups group).members.map (fun m => m.id)

/-- Invariant of the broadcast objects: every member of every group was created
earlier than the next member will be. -/
def MembersInv {σ : Type} (db : Db σ) : Prop :=
  ∀ g m, m ∈ (db.env.groups g).members → m.id < db.env.nextMember

/-- The values `&r` for the records `r` of type `t`. -/
def pointersTo (t : GoType) (rs : List GoValue) : List GoValue :=
  rs.map (fun r => GoValue.ptr t (some r))

/-- A group after `Send` of each value in turn. -/
def sendAll (g : Group) (vals : List GoValue) : Group :=
  vals.foldl Group_Send g

/-- The engine write of every `Save` of the run `saveAll E datas db` returns nil. -/
def writesSucceed {σ : Type} (E : Engine σ) : List GoValue → Db σ → Bool
  | [], _ => true
  | data :: rest, db =>
    match GetDbForValue E data db with
    | .panicked _ => false
    | .ret (dbc, db1) =>
      match E.call dbc (.Save data) db1.env.world with
      | .ret (none, _) =>
        match Save E data db with
        | .ret (none, db2) => writesSucceed E rest db2
        | _ => false
      | _ => false

/-- The anonymous struct type `struct { Name string }`. -/
def tAnon : GoType :=
  .struct (.cons "Name" true .string .nil)

/-- The value `&struct{ Name string }{"bob"}`. -/
def anonPtr : GoValue :=
  .ptr tAnon (some (.struct tAnon [.str "bob"]))

/-- The instantiated generic type `main.Box[main.User]`, a struct with one field. -/
def tBox : GoType :=
  .named "main" "Box[main.User]" (.struct (.cons "Item" true tUser .nil))

/-- The value `&Box[User]{}`. -/
def boxPtr : GoValue :=
  .ptr tBox (some (.struct tBox [.struct tUser [.str ""]]))

/-- The store after `Save(&User{Name: "bob"})` on a new store at `/data`. -/
def savedDb : Db Files :=
  match Save okEngine (userPtr "bob") freshDb with
  | .ret (_, db) => db
  | .panicked _ => freshDb

/-- The instantiated generic type `main.Pair[main.User]`, a struct with two fields. -/
def tPair : GoType :=
  .named "main" "Pair[main.User]"
    (.struct (.cons "First" true tUser (.cons "Second" true tUser .nil)))

/-- The value `&Pair[User]{}`. -/
def pairPtr : GoValue :=
  .ptr tPair (some (.struct tPair [.struct tUser [.str ""], .struct tUser [.str ""]]))

/-- The store after `Save(&Box[User]{})` on a new store at `/data`. -/
def savedBoxDb : Db Files :=
  match Save okEngine boxPtr freshDb with
  | .ret (_, db) => db
  | .panicked _ => freshDb

/-! ## The handle cache -/

theorem openCached_hit {σ : Type} (E : Engine σ) (name : String) (db : Db σ)
    (val : Option Handle) (hc : db.dbmap name = some val) :
    openCached E name db = (val, db) := by
  simp [openCached, hc]

theorem openCached_entry {σ : Type} (E : Engine σ) (name : String) (db : Db σ) :
    (openCached E name db).2.dbmap name = some (openCached E name db).1 := by
  unfold openCached
  cases hc : db.dbmap name with
  | some val => simpa using hc
  | none =>
    cases ho : E.Open (db.path ++ "/" ++ name ++ ".db") db.env.nextHandle db.env.world with
    | mk err w => cases err <;> simp [ho, mapSet]

theorem openCached_frame {σ : Type} (E : Engine σ) (name : String) (db : Db σ) :
    (openCached E name db).2.path = db.path ∧
    (openCached E name db).2.bucketsubscriptions = db.bucketsubscriptions ∧
    (openCached E name db).2.env.groups = db.env.groups ∧
    (openCached E name db).2.env.nextGroup = db.env.nextGroup ∧
    (openCached E name db).2.env.nextMember = db.env.nextMember := by
  unfold openCached
  cases hc : db.dbmap name with
  | some val => simp
  | none =>
    cases ho : E.Open (db.path ++ "/" ++ name ++ ".db") db.env.nextHandle db.env.world with
    | mk err w => cases err <;> simp [ho]

theorem openCached_again {σ : Type} (E : Engine σ) (name : String) (db : Db σ) :
    openCached E name (openCached E name db).2 = openCached E name db := by
  have h := openCached_hit E name (openCached E name db).2 _ (openCached_entry E name db)
  simpa using h

theorem GetDbForValue_frame {σ : Type} (E : Engine σ) (value : GoValue) (db : Db σ)
    (h : Option Handle) (db1 : Db σ) (hcall : GetDbForValue E value db = .ret (h, db1)) :
    db1.path = db.path ∧ db1.bucketsubscriptions = db.bucketsubscriptions ∧
    db1.env.groups = db.env.groups ∧ db1.env.nextGroup = db.env.nextGroup ∧
    db1.env.nextMember = db.env.nextMember := by
  unfold GetDbForValue at hcall
  cases hb : bucketIdentifier value with
  | panicked msg => simp [hb] at hcall
  | ret o =>
    cases o with
    | none =>
      simp [hb] at hcall
      obtain ⟨-, rfl⟩ := hcall
      simp
    | some name =>
      simp [hb] at hcall
      have hf := openCached_frame E name db
      rw [hcall] at hf
      exact hf

theorem bucketIdentifier_returns (value : GoValue) (hv : hasElem value) :
    ∃ o, bucketIdentifier value = .ret o := by
  obtain ⟨t, i, ht, hi⟩ := hv
  unfold bucketIdentifier
  simp only [ht, hi]
  split_ifs <;> exact ⟨_, rfl⟩

theorem GetDbForValue_returns {σ : Type} (E : Engine σ) (value : GoValue) (db : Db σ)
    (hv : hasElem value) : ∃ h db1, GetDbForValue E value db = .ret (h, db1) := by
  obtain ⟨o, ho⟩ := bucketIdentifier_returns value hv
  unfold GetDbForValue
  cases o with
  | none => exact ⟨none, db, by simp [ho]⟩
  | some name => exact ⟨(openCached E name db).1, (openCached E name db).2, by simp [ho]⟩

/-- C1: two successive calls of `GetDbForValue` on the same value return the identical
handle.  The first call returns for every value whose type has an element type; when
it has returned handle `h` and store `db1`, the second call returns `h` again and
leaves the store exactly as it was (same `dbmap`, same engine state, same record of
external calls: no second open, also when `h` is the nil handle of a failed open),
and `h` is the entry cached in `dbmap` under the value's bucket identifier. -/
theorem GetDbForValue_twice {σ : Type} (E : Engine σ) (value : GoValue) (db : Db σ) :
    (hasElem value → ∃ h db1, GetDbForValue E value db = .ret (h, db1)) ∧
    ∀ h db1, GetDbForValue E value db = .ret (h, db1) →
      GetDbForValue E value db1 = .ret (h, db1) ∧
      (∀ name, bucketIdentifier value = .ret (some name) → db1.dbmap name = some h) ∧
      (bucketIdentifier value = .ret none → h = none ∧ db1 = db) := by
  refine ⟨GetDbForValue_returns E value db, ?_⟩
  intro h db1 hcall
  unfold GetDbForValue at hcall ⊢
  cases hb : bucketIdentifier value with
  | panicked msg => simp [hb] at hcall
  | ret o =>
    cases o with
    | none =>
      simp [hb] at hcall
      obtain ⟨rfl, rfl⟩ := hcall
      simp
    | some name =>
      simp only [hb, Outcome.ret.injEq] at hcall
      have he := openCached_entry E name db
      have ha := openCached_again E name db
      rw [hcall] at he ha
      simp only at he ha
      refine ⟨by simp [ha], ?_, by simp⟩
      intro n hn
      simp only [Outcome.ret.injEq, Option.some.injEq] at hn
      rw [← hn]; exact he

/-- Witness of C1 on a store whose open fails: the first call on `&User{}` returns the
nil handle and caches it, the second call returns it again without another open. -/
theorem GetDbForValue_twice_witness :
    hasElem (userPtr "bob") ∧
    GetDbForValue noOpenEngine (userPtr "bob") freshDb
      = .ret (none, (openCached noOpenEngine "User" freshDb).2) ∧
    GetDbForValue noOpenEngine (userPtr "bob") (openCached noOpenEngine "User" freshDb).2
      = .ret (none, (openCached noOpenEngine "User" freshDb).2) ∧
    (openCached noOpenEngine "User" freshDb).2.env.trace
      = [Event.opened "/data/User.db" none, Event.logged "open failed"] :=
  ⟨⟨_, _, rfl, rfl⟩, rfl,
   ((GetDbForValue_twice noOpenEngine (userPtr "bob") freshDb).2 none _ rfl).1, rfl⟩

/-! ## Distinct buckets -/

theorem CacheInv_New {σ : Type} (path : String) (env : Env σ) : CacheInv (New path env) := by
  constructor
  · intro n h hn; simp [New] at hn
  · intro n1 n2 h hn; simp [New] at hn

theorem openCached_cases {σ : Type} (E : Engine σ) (name : String) (db : Db σ) :
    (db.dbmap name = some (openCached E name db).1 ∧ (openCached E name db).2 = db) ∨
    (db.dbmap name = none ∧
      (openCached E name db).1 = some db.env.nextHandle ∧
      (openCached E name db).2.dbmap = mapSet db.dbmap name (some db.env.nextHandle) ∧
      (openCached E name db).2.env.nextHandle = db.env.nextHandle + 1) ∨
    (db.dbmap name = none ∧
      (openCached E name db).1 = none ∧
      (openCached E name db).2.dbmap = mapSet db.dbmap name none ∧
      (openCached E name db).2.env.nextHandle = db.env.nextHandle) := by
  unfold openCached
  cases hc : db.dbmap name with
  | some val => left; simp
  | none =>
    right
    cases ho : E.Open (db.path ++ "/" ++ name ++ ".db") db.env.nextHandle db.env.world with
    | mk err w => cases err <;> simp [ho]

theorem openCached_inv {σ : Type} (E : Engine σ) (name : String) (db : Db σ)
    (hinv : CacheInv db) : CacheInv (openCached E name db).2 := by
  obtain ⟨hlt, hinj⟩ := hinv
  rcases openCached_cases E name db with ⟨-, hs⟩ | ⟨hc, -, hm, hn⟩ | ⟨hc, -, hm, hn⟩
  · rw [hs]; exact ⟨hlt, hinj⟩
  · constructor
    · intro n h hh
      rw [hm] at hh; rw [hn]
      unfold mapSet at hh
      split at hh
      · simp at hh; subst hh; exact Nat.lt_succ_self _
      · exact Nat.lt_succ_of_lt (hlt n h hh)
    · intro n1 n2 h h1 h2
      rw [hm] at h1 h2
      unfold mapSet at h1 h2
      split at h1 <;> split at h2
      · simp_all
      · simp at h1; subst h1; exact absurd (hlt n2 _ h2) (Nat.lt_irrefl _)
      · simp at h2; subst h2; exact absurd (hlt n1 _ h1) (Nat.lt_irrefl _)
      · exact hinj n1 n2 h h1 h2
  · constructor
    · intro n h hh
      rw [hm] at hh; rw [hn]
      unfold mapSet at hh
      split at hh
      · simp at hh
      · exact hlt n h hh
    · intro n1 n2 h h1 h2
      rw [hm] at h1 h2
      unfold mapSet at h1 h2
      split at h1 <;> split at h2
      · simp_all
      · simp at h1
      · simp at h2
      · exact hinj n1 n2 h h1 h2

theorem GetDbForValue_inv {σ : Type} (E : Engine σ) (value : GoValue) (db : Db σ)
    (h : Option Handle) (db1 : Db σ) (hinv : CacheInv db)
    (hcall : GetDbForValue E value db = .ret (h, db1)) : CacheInv db1 := by
  unfold GetDbForValue at hcall
  cases hb : bucketIdentifier value with
  | panicked msg => simp [hb] at hcall
  | ret o =>
    cases o with
    | none =>
      simp [hb] at hcall
      obtain ⟨-, rfl⟩ := hcall
      exact hinv
    | some name =>
      simp only [hb, Outcome.ret.injEq] at hcall
      have := openCached_inv E name db hinv
      rw [hcall] at this
      exact this

theorem openCached_other {σ : Type} (E : Engine σ) (name other : String) (db : Db σ)
    (hne : other ≠ name) :
    (openCached E name db).2.dbmap other = db.dbmap other := by
  rcases openCached_cases E name db with ⟨-, hs⟩ | ⟨-, -, hm, -⟩ | ⟨-, -, hm, -⟩
  · rw [hs]
  · rw [hm]; simp [mapSet, hne]
  · rw [hm]; simp [mapSet, hne]

/-- C2 as the code has it: the handle is selected by the bucket identifier, the last
dot-separated piece of the text of the pointed-to type.  On a store whose cache is
consistent, resolving `v1` and then `v2` returns; with equal identifiers both calls
return the same handle; with different identifiers the two handles are held in two
different `dbmap` entries and are never the same non-nil handle (both are nil when
both opens fail). -/
theorem GetDbForValue_by_identifier {σ : Type} (E : Engine σ) (v1 v2 : GoValue)
    (db : Db σ) (n1 n2 : String) (hinv : CacheInv db)
    (h1 : bucketIdentifier v1 = .ret (some n1))
    (h2 : bucketIdentifier v2 = .ret (some n2)) :
    ∃ d1 db1 d2 db2,
      GetDbForValue E v1 db = .ret (d1, db1) ∧
      GetDbForValue E v2 db1 = .ret (d2, db2) ∧
      (n1 = n2 → d1 = d2) ∧
      (n1 ≠ n2 → db2.dbmap n1 = some d1 ∧ db2.dbmap n2 = some d2 ∧ (d1 = d2 → d1 = none)) := by
  refine ⟨(openCached E n1 db).1, (openCached E n1 db).2,
    (openCached E n2 (openCached E n1 db).2).1, (openCached E n2 (openCached E n1 db).2).2,
    by simp [GetDbForValue, h1], by simp [GetDbForValue, h2], ?_, ?_⟩
  · intro hn
    subst hn
    rw [openCached_again]
  · intro hne
    have he1 := openCached_entry E n1 db
    have he2 := openCached_entry E n2 (openCached E n1 db).2
    have hinv1 := openCached_inv E n1 db hinv
    refine ⟨?_, he2, ?_⟩
    · rw [openCached_other E n2 n1 _ hne]; exact he1
    · intro heq
      cases hd : (openCached E n1 db).1 with
      | none => rfl
      | some h =>
        exfalso
        rw [hd] at he1
        rw [← heq, hd] at he2
        rcases openCached_cases E n2 (openCached E n1 db).2 with
          ⟨hc, -⟩ | ⟨-, hr, -, -⟩ | ⟨-, hr, -, -⟩
        · rw [← heq, hd] at hc
          exact hne (hinv1.2 n1 n2 h he1 hc)
        · rw [← heq, hd] at hr
          have hlt := hinv1.1 n1 h he1
          simp at hr
          subst hr
          exact absurd hlt (Nat.lt_irrefl _)
        · rw [← heq, hd] at hr
          simp at hr

/-- Witness of the amended C2: `&User{}` and `&Item{}` on a new store get the two
different handles 0 and 1. -/
theorem GetDbForValue_by_identifier_witness :
    CacheInv freshDb ∧
    bucketIdentifier (userPtr "bob") = .ret (some "User") ∧
    bucketIdentifier (itemPtr 7) = .ret (some "Item") ∧
    ∃ d1 db1 d2 db2,
      GetDbForValue okEngine (userPtr "bob") freshDb = .ret (d1, db1) ∧
      GetDbForValue okEngine (itemPtr 7) db1 = .ret (d2, db2) ∧
      ("User" = "Item" → d1 = d2) ∧
      ("User" ≠ "Item" →
        db2.dbmap "User" = some d1 ∧ db2.dbmap "Item" = some d2 ∧ (d1 = d2 → d1 = none)) :=
  ⟨CacheInv_New _ _, rfl, rfl,
   GetDbForValue_by_identifier okEngine (userPtr "bob") (itemPtr 7) freshDb "User" "Item"
     (CacheInv_New _ _) rfl rfl⟩

/-- Counterexample to C2 as stated.  The pointed-to types `User` and `[]User` have
different simple names ("User" and the empty name), yet `&User{}` and `&[]User{}`
resolve to the same non-nil handle 0, because both texts end in the piece "User".
The defined types `Box[main.User]` and `Pair[main.User]` have different simple names,
yet both texts end in the piece "User]" and both values resolve to handle 0.  The
types `User` and `Item` have different simple names, yet on a store whose opens fail
both values get the same (nil) handle. -/
theorem GetDbForValue_same_handle_counterexample :
    (Type_Name tUser ≠ Type_Name (GoType.slice tUser) ∧
      GetDbForValue okEngine (userPtr "bob") freshDb
        = .ret (some 0, (openCached okEngine "User" freshDb).2) ∧
      GetDbForValue okEngine usersPtr (openCached okEngine "User" freshDb).2
        = .ret (some 0, (openCached okEngine "User" freshDb).2)) ∧
    (Type_Name tBox ≠ Type_Name tPair ∧
      GetDbForValue okEngine boxPtr freshDb
        = .ret (some 0, (openCached okEngine "User]" freshDb).2) ∧
      GetDbForValue okEngine pairPtr (openCached okEngine "User]" freshDb).2
        = .ret (some 0, (openCached okEngine "User]" freshDb).2)) ∧
    (Type_Name tUser ≠ Type_Name tItem ∧
      GetDbForValue noOpenEngine (userPtr "bob") freshDb
        = .ret (none, (openCached noOpenEngine "User" freshDb).2) ∧
      GetDbForValue noOpenEngine (itemPtr 7) (openCached noOpenEngine "User" freshDb).2
        = .ret (none,
            (openCached noOpenEngine "Item" (openCached noOpenEngine "User" freshDb).2).2)) :=
  ⟨⟨by decide, rfl, rfl⟩, ⟨by decide, rfl, rfl⟩, ⟨by decide, rfl, rfl⟩⟩

/-! ## The facade -/

theorem callOn_eq {σ : Type} (E : Engine σ) (x : GoValue) (c : EngineCall) (db : Db σ)
    (dbc : Option Handle) (db1 : Db σ) (hres : GetDbForValue E x db = .ret (dbc, db1)) :
    callOn E x c db =
      match E.call dbc c db1.env.world with
      | .panicked msg => .panicked msg
      | .ret (err, w) =>
        .ret (dbc, err, { db1 with env := { db1.env with
          world := w, trace := db1.env.trace ++ [Event.called dbc c] } }) := by
  simp [callOn, hres]

theorem publish_subscriptions {σ : Type} (name : String) (data : GoValue) (db : Db σ) :
    (publish name data db).bucketsubscriptions = db.bucketsubscriptions ∧
    (publish name data db).dbmap = db.dbmap ∧
    (publish name data db).env.nextHandle = db.env.nextHandle := by
  unfold publish
  cases db.bucketsubscriptions name <;> simp

theorem callOn_frame {σ : Type} (E : Engine σ) (x : GoValue) (c : EngineCall) (db : Db σ)
    (dbc : Option Handle) (err : Option Err) (db2 : Db σ)
    (hcall : callOn E x c db = .ret (dbc, err, db2)) :
    db2.bucketsubscriptions = db.bucketsubscriptions ∧ db2.env.groups = db.env.groups := by
  unfold callOn at hcall
  cases hg : GetDbForValue E x db with
  | panicked msg => simp [hg] at hcall
  | ret r =>
    obtain ⟨d, db1⟩ := r
    have hf := GetDbForValue_frame E x db d db1 hg
    simp only [hg] at hcall
    cases hc : E.call d c db1.env.world with
    | panicked msg => simp [hc] at hcall
    | ret q =>
      obtain ⟨e, w⟩ := q
      simp only [hc, Outcome.ret.injEq, Prod.mk.injEq] at hcall
      obtain ⟨-, -, rfl⟩ := hcall
      exact ⟨hf.2.1, hf.2.2.1⟩

/-- C3: when the engine's save on the resolved handle returns the error `e`, `Save`
returns exactly `e`, no group is sent anything (the groups are as they were) and the
map `bucketsubscriptions` is unchanged. -/
theorem Save_engine_error {σ : Type} (E : Engine σ) (data : GoValue) (db : Db σ)
    (dbc : Option Handle) (db1 : Db σ) (e : Err) (w : σ)
    (hres : GetDbForValue E data db = .ret (dbc, db1))
    (hsave : E.call dbc (.Save data) db1.env.world = .ret (some e, w)) :
    ∃ db2, Save E data db = .ret (some e, db2) ∧
      db2.env.groups = db.env.groups ∧
      db2.bucketsubscriptions = db.bucketsubscriptions := by
  have hf := GetDbForValue_frame E data db dbc db1 hres
  refine ⟨_, by simp [Save, callOn_eq E data _ db dbc db1 hres, hsave]; rfl, ?_, ?_⟩
  · exact hf.2.2.1
  · exact hf.2.1

/-- Witness of C3: on an engine whose saves fail, with a group registered for "User",
`Save(&User{})` returns the engine's error and the group receives nothing. -/
theorem Save_engine_error_witness :
    GetDbForValue noSaveEngine (userPtr "bob") subscribedDb
      = .ret (some 0, (openCached noSaveEngine "User" subscribedDb).2) ∧
    ∃ db2, Save noSaveEngine (userPtr "bob") subscribedDb = .ret (some "save failed", db2) ∧
      db2.env.groups = subscribedDb.env.groups ∧
      db2.bucketsubscriptions = subscribedDb.bucketsubscriptions :=
  ⟨rfl, Save_engine_error noSaveEngine (userPtr "bob") subscribedDb (some 0)
    (openCached noSaveEngine "User" subscribedDb).2 "save failed"
    (openCached noSaveEngine "User" subscribedDb).2.env.world rfl rfl⟩

/-- C4: `Save` never changes the map `bucketsubscriptions`; and when the engine's save
succeeds on a store that has no group under the value's broadcast name, `Save`
returns nil and no group is sent anything. -/
theorem Save_no_group {σ : Type} (E : Engine σ) (data : GoValue) (db : Db σ) :
    (∀ err db2, Save E data db = .ret (err, db2) →
      db2.bucketsubscriptions = db.bucketsubscriptions) ∧
    (∀ dbc db1 w, GetDbForValue E data db = .ret (dbc, db1) →
      E.call dbc (.Save data) db1.env.world = .ret (none, w) →
      (∀ name, broadcastName data = some name → db.bucketsubscriptions name = none) →
      ∃ db2, Save E data db = .ret (none, db2) ∧
        db2.env.groups = db.env.groups ∧
        db2.bucketsubscriptions = db.bucketsubscriptions) := by
  constructor
  · intro err db2 hs
    unfold Save at hs
    cases hc : callOn E data (.Save data) db with
    | panicked msg => simp [hc] at hs
    | ret r =>
      obtain ⟨d, e, db1⟩ := r
      have hf := callOn_frame E data _ db d e db1 hc
      cases e with
      | some e =>
        simp only [hc, Outcome.ret.injEq, Prod.mk.injEq] at hs
        obtain ⟨-, rfl⟩ := hs
        exact hf.1
      | none =>
        simp only [hc] at hs
        cases hb : broadcastName data with
        | none =>
          simp only [hb, Outcome.ret.injEq, Prod.mk.injEq] at hs
          obtain ⟨-, rfl⟩ := hs
          exact hf.1
        | some name =>
          simp only [hb, Outcome.ret.injEq, Prod.mk.injEq] at hs
          obtain ⟨-, rfl⟩ := hs
          rw [(publish_subscriptions name data db1).1]
          exact hf.1
  · intro dbc db1 w hres hsave hnone
    have hf := GetDbForValue_frame E data db dbc db1 hres
    cases hb : broadcastName data with
    | none =>
      refine ⟨_, by simp [Save, callOn_eq E data _ db dbc db1 hres, hsave, hb]; rfl, ?_, ?_⟩
      · exact hf.2.2.1
      · exact hf.2.1
    | some name =>
      have hn : db1.bucketsubscriptions name = none := by
        rw [hf.2.1]; exact hnone name hb
      refine ⟨_, by simp [Save, callOn_eq E data _ db dbc db1 hres, hsave, hb, publish, hn]; rfl,
        ?_, ?_⟩
      · exact hf.2.2.1
      · exact hf.2.1

/-- Witness of C4: `Save(&User{})` on a new store, where no group exists. -/
theorem Save_no_group_witness :
    GetDbForValue okEngine (userPtr "bob") freshDb
      = .ret (some 0, (openCached okEngine "User" freshDb).2) ∧
    (∀ name, broadcastName (userPtr "bob") = some name →
      freshDb.bucketsubscriptions name = none) ∧
    ∃ db2, Save okEngine (userPtr "bob") freshDb = .ret (none, db2) ∧
      db2.env.groups = freshDb.env.groups ∧
      db2.bucketsubscriptions = freshDb.bucketsubscriptions :=
  ⟨rfl, fun _ _ => rfl,
   (Save_no_group okEngine (userPtr "bob") freshDb).2 (some 0)
     (openCached okEngine "User" freshDb).2 _ rfl rfl (fun _ _ => rfl)⟩

/-! ## Subscriptions -/

theorem SubscribeChanges_some {σ : Type} (b : String) (db : Db σ) (g : Nat)
    (hg : db.bucketsubscriptions b = some g) :
    (SubscribeChanges b db).1 = db.env.nextMember ∧
    (SubscribeChanges b db).2.bucketsubscriptions = db.bucketsubscriptions ∧
    (SubscribeChanges b db).2.env.nextMember = db.env.nextMember + 1 ∧
    (SubscribeChanges b db).2.env.nextGroup = db.env.nextGroup ∧
    memberIds (SubscribeChanges b db).2 g = memberIds db g ++ [db.env.nextMember] ∧
    ((SubscribeChanges b db).2.env.groups g).loops = (db.env.groups g).loops ∧
    ((SubscribeChanges b db).2.env.groups g).sent = (db.env.groups g).sent ∧
    (∀ g2, g2 ≠ g → (SubscribeChanges b db).2.env.groups g2 = db.env.groups g2) := by
  simp [SubscribeChanges, hg, memberIds, setGroup, Group_Join]
  intro g2 h2 h3
  exact absurd h3 h2

theorem SubscribeChanges_none {σ : Type} (b : String) (db : Db σ)
    (hg : db.bucketsubscriptions b = none) :
    (SubscribeChanges b db).1 = db.env.nextMember ∧
    (SubscribeChanges b db).2.bucketsubscriptions b = some db.env.nextGroup ∧
    (∀ b2, b2 ≠ b →
      (SubscribeChanges b db).2.bucketsubscriptions b2 = db.bucketsubscriptions b2) ∧
    (SubscribeChanges b db).2.env.nextMember = db.env.nextMember + 1 ∧
    (SubscribeChanges b db).2.env.nextGroup = db.env.nextGroup + 1 ∧
    memberIds (SubscribeChanges b db).2 db.env.nextGroup = [db.env.nextMember] ∧
    ((SubscribeChanges b db).2.env.groups db.env.nextGroup).loops = 1 ∧
    ((SubscribeChanges b db).2.env.groups db.env.nextGroup).sent = [] ∧
    (∀ g2, g2 ≠ db.env.nextGroup →
      (SubscribeChanges b db).2.env.groups g2 = db.env.groups g2) := by
  simp [SubscribeChanges, hg, memberIds, setGroup, Group_Join, mapSet, bcast_NewGroup]
  constructor
  · intro b2 h2 h3; exact absurd h3 h2
  · intro g2 h2 h3; exact absurd h3 h2

theorem subscribeTimes_some {σ : Type} (b : String) (k : Nat) :
    ∀ (db : Db σ) (g : Nat), db.bucketsubscriptions b = some g →
      (subscribeTimes b k db).1 = List.range' db.env.nextMember k ∧
      (subscribeTimes b k db).2.bucketsubscriptions = db.bucketsubscriptions ∧
      memberIds (subscribeTimes b k db).2 g = memberIds db g ++ (subscribeTimes b k db).1 ∧
      ((subscribeTimes b k db).2.env.groups g).loops = (db.env.groups g).loops := by
  induction k with
  | zero => intro db g _; simp [subscribeTimes]
  | succ k ih =>
    intro db g hg
    obtain ⟨h1, h2, h3, -, h5, h6, -, -⟩ := SubscribeChanges_some b db g hg
    have hg1 : (SubscribeChanges b db).2.bucketsubscriptions b = some g := by rw [h2]; exact hg
    obtain ⟨i1, i2, i3, i4⟩ := ih (SubscribeChanges b db).2 g hg1
    simp only [subscribeTimes]
    refine ⟨?_, ?_, ?_, ?_⟩
    · rw [i1, h1, h3]; simp [List.range']
    · rw [i2, h2]
    · rw [i3, h5, h1]; simp
    · rw [i4, h6]

/-- C6: `SubscribeChanges(b)` leaves exactly one group for `b`.  An existing group is
kept (same group, no further distribution loop, earlier members and sent values
kept); a missing one is created once, with one loop.  The entries of every other
name are unchanged.  The call returns a new member (no member of any group has its
identity, on a store whose members were all created earlier), joined to that group;
and `k` calls in a row return `k` distinct members, all joined to the one group of
`b`, which from a store without a group for `b` has exactly these `k` members. -/
theorem SubscribeChanges_one_group {σ : Type} (b : String) (db : Db σ) :
    (∃ g, (SubscribeChanges b db).2.bucketsubscriptions b = some g ∧
      (∀ g0, db.bucketsubscriptions b = some g0 →
        g = g0 ∧
        memberIds (SubscribeChanges b db).2 g = memberIds db g ++ [(SubscribeChanges b db).1] ∧
        ((SubscribeChanges b db).2.env.groups g).loops = (db.env.groups g).loops ∧
        ((SubscribeChanges b db).2.env.groups g).sent = (db.env.groups g).sent) ∧
      (db.bucketsubscriptions b = none →
        g = db.env.nextGroup ∧
        (SubscribeChanges b db).2.env.nextGroup = db.env.nextGroup + 1 ∧
        memberIds (SubscribeChanges b db).2 g = [(SubscribeChanges b db).1] ∧
        ((SubscribeChanges b db).2.env.groups g).loops = 1)) ∧
    (∀ b2, b2 ≠ b →
      (SubscribeChanges b db).2.bucketsubscriptions b2 = db.bucketsubscriptions b2) ∧
    ((SubscribeChanges b db).1 = db.env.nextMember ∧
      (SubscribeChanges b db).2.env.nextMember = db.env.nextMember + 1 ∧
      (MembersInv db → ∀ g m, m ∈ (db.env.groups g).members →
        m.id ≠ (SubscribeChanges b db).1)) ∧
    (∀ k, (subscribeTimes b k db).1.length = k ∧ (subscribeTimes b k db).1.Nodup ∧
      (∀ g0, db.bucketsubscriptions b = some g0 →
        (subscribeTimes b k db).2.bucketsubscriptions b = some g0 ∧
        memberIds (subscribeTimes b k db).2 g0 = memberIds db g0 ++ (subscribeTimes b k db).1 ∧
        ((subscribeTimes b k db).2.env.groups g0).loops = (db.env.groups g0).loops) ∧
      (db.bucketsubscriptions b = none → 0 < k →
        (subscribeTimes b k db).2.bucketsubscriptions b = some db.env.nextGroup ∧
        memberIds (subscribeTimes b k db).2 db.env.nextGroup = (subscribeTimes b k db).1 ∧
        ((subscribeTimes b k db).2.env.groups db.env.nextGroup).loops = 1)) := by
  have hk : ∀ k, (subscribeTimes b k db).1 = List.range' db.env.nextMember k ∧
      (∀ g0, db.bucketsubscriptions b = some g0 →
        (subscribeTimes b k db).2.bucketsubscriptions b = some g0 ∧
        memberIds (subscribeTimes b k db).2 g0 = memberIds db g0 ++ (subscribeTimes b k db).1 ∧
        ((subscribeTimes b k db).2.env.groups g0).loops = (db.env.groups g0).loops) ∧
      (db.bucketsubscriptions b = none → 0 < k →
        (subscribeTimes b k db).2.bucketsubscriptions b = some db.env.nextGroup ∧
        memberIds (subscribeTimes b k db).2 db.env.nextGroup = (subscribeTimes b k db).1 ∧
        ((subscribeTimes b k db).2.env.groups db.env.nextGroup).loops = 1) := by
    intro k
    cases hb : db.bucketsubscriptions b with
    | some g =>
      obtain ⟨i1, i2, i3, i4⟩ := subscribeTimes_some b k db g hb
      refine ⟨i1, ?_, by simp⟩
      intro g0 hg0
      simp only [Option.some.injEq] at hg0
      subst hg0
      exact ⟨by rw [i2]; exact hb, i3, i4⟩
    | none =>
      obtain ⟨h1, h2, -, h4, -, h6, h7, -, -⟩ := SubscribeChanges_none b db hb
      cases k with
      | zero => simp [subscribeTimes]
      | succ k =>
        obtain ⟨i1, i2, i3, i4⟩ :=
          subscribeTimes_some b k (SubscribeChanges b db).2 db.env.nextGroup h2
        simp only [subscribeTimes]
        refine ⟨?_, by simp, ?_⟩
        · rw [i1, h1, h4]; simp [List.range']
        · intro _ _
          refine ⟨by rw [i2]; exact h2, ?_, by rw [i4, h7]⟩
          rw [i3, h6, h1]; simp
  refine ⟨?_, ?_, ?_, ?_⟩
  · cases hb : db.bucketsubscriptions b with
    | some g =>
      obtain ⟨h1, h2, -, -, h5, h6, h7, -⟩ := SubscribeChanges_some b db g hb
      refine ⟨g, by rw [h2]; exact hb, ?_, by simp⟩
      intro g0 hg0
      simp only [Option.some.injEq] at hg0
      subst hg0
      exact ⟨rfl, by rw [h5, h1], h6, h7⟩
    | none =>
      obtain ⟨h1, h2, -, -, h5, h6, h7, -, -⟩ := SubscribeChanges_none b db hb
      refine ⟨db.env.nextGroup, h2, by simp, ?_⟩
      intro _
      exact ⟨rfl, h5, by rw [h6, h1], h7⟩
  · intro b2 hb2
    cases hb : db.bucketsubscriptions b with
    | some g => rw [(SubscribeChanges_some b db g hb).2.1]
    | none => exact (SubscribeChanges_none b db hb).2.2.1 b2 hb2
  · have hm : (SubscribeChanges b db).1 = db.env.nextMember := by
      cases hb : db.bucketsubscriptions b with
      | some g => exact (SubscribeChanges_some b db g hb).1
      | none => exact (SubscribeChanges_none b db hb).1
    refine ⟨hm, ?_, ?_⟩
    · cases hb : db.bucketsubscriptions b with
      | some g => exact (SubscribeChanges_some b db g hb).2.2.1
      | none => exact (SubscribeChanges_none b db hb).2.2.2.1
    · intro hinv g m hmem
      rw [hm]
      exact Nat.ne_of_lt (hinv g m hmem)
  · intro k
    obtain ⟨h1, h2, h3⟩ := hk k
    refine ⟨by rw [h1]; simp, by rw [h1]; exact List.nodup_range' _ _, h2, h3⟩

/-- Witness of C6: three calls of `SubscribeChanges("User")` on a new store leave one
group for "User", with the three members returned. -/
theorem SubscribeChanges_one_group_witness :
    freshDb.bucketsubscriptions "User" = none ∧ 0 < 3 ∧
    (subscribeTimes "User" 3 freshDb).2.bucketsubscriptions "User" = some 0 ∧
    memberIds (subscribeTimes "User" 3 freshDb).2 0 = (subscribeTimes "User" 3 freshDb).1 ∧
    ((subscribeTimes "User" 3 freshDb).2.env.groups 0).loops = 1 ∧
    (subscribeTimes "User" 3 freshDb).1 = [0, 1, 2] :=
  ⟨rfl, by decide,
   ((SubscribeChanges_one_group "User" freshDb).2.2.2 3).2.2.2 rfl (by decide) |>.1,
   ((SubscribeChanges_one_group "User" freshDb).2.2.2 3).2.2.2 rfl (by decide) |>.2.1,
   ((SubscribeChanges_one_group "User" freshDb).2.2.2 3).2.2.2 rfl (by decide) |>.2.2,
   rfl⟩

/-! ## The nil handle -/

theorem passThrough_nil {σ : Type} (E : Engine σ) (x : GoValue) (c : EngineCall)
    (db db1 : Db σ) (hnil : GetDbForValue E x db = .ret (none, db1)) :
    (∀ msg, E.call none c db1.env.world = .panicked msg →
      passThrough E x c db = .panicked msg) ∧
    (∀ err w, E.call none c db1.env.world = .ret (err, w) →
      ∃ db2, passThrough E x c db = .ret (err, db2)) := by
  constructor
  · intro msg hc
    simp [passThrough, callOn_eq E x c db none db1 hnil, hc]
  · intro err w hc
    exact ⟨_, by simp [passThrough, callOn_eq E x c db none db1 hnil, hc]; rfl⟩

/-- C8 as the code has it: when `GetDbForValue` yields the nil handle, every facade
operation makes its engine call on that nil handle without any check of its own.  If
the engine's method panics on a nil receiver, the operation panics with the same
message; if the method returns an error, the error-returning operations return that
error, and `Init` discards it. -/
theorem facade_nil_handle {σ : Type} (E : Engine σ) (x : GoValue) (db db1 : Db σ)
    (hnil : GetDbForValue E x db = .ret (none, db1)) :
    (∀ msg,
      (E.call none (.Init x) db1.env.world = .panicked msg → Init E x db = .panicked msg) ∧
      (E.call none (.Save x) db1.env.world = .panicked msg → Save E x db = .panicked msg) ∧
      (∀ f v, E.call none (.One f v x) db1.env.world = .panicked msg →
        Get E f v x db = .panicked msg) ∧
      (∀ f v, E.call none (.Find f v x) db1.env.world = .panicked msg →
        GetFilter E f v x db = .panicked msg) ∧
      (E.call none (.All x) db1.env.world = .panicked msg → GetAll E x db = .panicked msg) ∧
      (∀ f r, E.call none (.SelectReFind f r x) db1.env.world = .panicked msg →
        GetRegex E f r x db = .panicked msg) ∧
      (E.call none (.DeleteStruct x) db1.env.world = .panicked msg →
        Remove E x db = .panicked msg)) ∧
    (∀ e w,
      (∀ o, E.call none (.Init x) db1.env.world = .ret (o, w) → ∃ db2, Init E x db = .ret db2) ∧
      (E.call none (.Save x) db1.env.world = .ret (some e, w) →
        ∃ db2, Save E x db = .ret (some e, db2)) ∧
      (∀ f v, E.call none (.One f v x) db1.env.world = .ret (some e, w) →
        ∃ db2, Get E f v x db = .ret (some e, db2)) ∧
      (∀ f v, E.call none (.Find f v x) db1.env.world = .ret (some e, w) →
        ∃ db2, GetFilter E f v x db = .ret (some e, db2)) ∧
      (E.call none (.All x) db1.env.world = .ret (some e, w) →
        ∃ db2, GetAll E x db = .ret (some e, db2)) ∧
      (∀ f r, E.call none (.SelectReFind f r x) db1.env.world = .ret (some e, w) →
        ∃ db2, GetRegex E f r x db = .ret (some e, db2)) ∧
      (E.call none (.DeleteStruct x) db1.env.world = .ret (some e, w) →
        ∃ db2, Remove E x db = .ret (some e, db2))) := by
  constructor
  · intro msg
    refine ⟨?_, ?_, ?_, ?_, ?_, ?_, ?_⟩
    · intro hc; simp [Init, callOn_eq E x _ db none db1 hnil, hc]
    · intro hc; simp [Save, callOn_eq E x _ db none db1 hnil, hc]
    · intro f v hc; exact (passThrough_nil E x _ db db1 hnil).1 msg hc
    · intro f v hc; exact (passThrough_nil E x _ db db1 hnil).1 msg hc
    · intro hc; exact (passThrough_nil E x _ db db1 hnil).1 msg hc
    · intro f r hc; exact (passThrough_nil E x _ db db1 hnil).1 msg hc
    · intro hc; exact (passThrough_nil E x _ db db1 hnil).1 msg hc
  · intro e w
    refine ⟨?_, ?_, ?_, ?_, ?_, ?_, ?_⟩
    · intro o hc; exact ⟨_, by simp [Init, callOn_eq E x _ db none db1 hnil, hc]; rfl⟩
    · intro hc; exact ⟨_, by simp [Save, callOn_eq E x _ db none db1 hnil, hc]; rfl⟩
    · intro f v hc; exact (passThrough_nil E x _ db db1 hnil).2 _ w hc
    · intro f v hc; exact (passThrough_nil E x _ db db1 hnil).2 _ w hc
    · intro hc; exact (passThrough_nil E x _ db db1 hnil).2 _ w hc
    · intro f r hc; exact (passThrough_nil E x _ db db1 hnil).2 _ w hc
    · intro hc; exact (passThrough_nil E x _ db db1 hnil).2 _ w hc

/-- Witness of the amended C8: on the reference engine with failing opens the handle
of `&User{}` is nil, the engine's `Save` panics on it, and so does `Save`. -/
theorem facade_nil_handle_witness :
    GetDbForValue noOpenEngine (userPtr "bob") freshDb
      = .ret (none, (openCached noOpenEngine "User" freshDb).2) ∧
    noOpenEngine.call none (.Save (userPtr "bob"))
        (openCached noOpenEngine "User" freshDb).2.env.world
      = .panicked "invalid memory address or nil pointer dereference" ∧
    Save noOpenEngine (userPtr "bob") freshDb
      = .panicked "invalid memory address or nil pointer dereference" :=
  ⟨rfl, rfl,
   ((facade_nil_handle noOpenEngine (userPtr "bob") freshDb
      (openCached noOpenEngine "User" freshDb).2 rfl).1 _).2.1 rfl⟩

/-- Counterexample to C8 as stated: a store whose opens fail resolves `&User{}` to the
nil handle, and on an engine whose methods dereference their receiver each of the
seven facade operations panics instead of failing cleanly. -/
theorem facade_nil_handle_counterexample :
    GetDbForValue noOpenEngine (userPtr "bob") freshDb
      = .ret (none, (openCached noOpenEngine "User" freshDb).2) ∧
    Init noOpenEngine (userPtr "bob") freshDb
      = .panicked "invalid memory address or nil pointer dereference" ∧
    Save noOpenEngine (userPtr "bob") freshDb
      = .panicked "invalid memory address or nil pointer dereference" ∧
    Get noOpenEngine "Name" (.str "bob") (userPtr "") freshDb
      = .panicked "invalid memory address or nil pointer dereference" ∧
    GetFilter noOpenEngine "Name" (.str "bob") usersPtr freshDb
      = .panicked "invalid memory address or nil pointer dereference" ∧
    GetAll noOpenEngine usersPtr freshDb
      = .panicked "invalid memory address or nil pointer dereference" ∧
    GetRegex noOpenEngine "Name" "b.*" usersPtr freshDb
      = .panicked "invalid memory address or nil pointer dereference" ∧
    Remove noOpenEngine (userPtr "bob") freshDb
      = .panicked "invalid memory address or nil pointer dereference" :=
  ⟨rfl, rfl, rfl, rfl, rfl, rfl, rfl, rfl⟩

/-! ## Broadcast of saved values -/

theorem sendAll_spec (vals : List GoValue) :
    ∀ g : Group, (sendAll g vals).sent = g.sent ++ vals ∧
      (sendAll g vals).loops = g.loops ∧
      (sendAll g vals).members
        = g.members.map (fun m => { m with inbox := m.inbox ++ vals }) := by
  induction vals with
  | nil => intro g; simp [sendAll]
  | cons v vs ih =>
    intro g
    obtain ⟨h1, h2, h3⟩ := ih (Group_Send g v)
    simp only [sendAll, List.foldl_cons] at h1 h2 h3 ⊢
    refine ⟨?_, ?_, ?_⟩
    · rw [h1]; simp [Group_Send]
    · rw [h2]; simp [Group_Send]
    · rw [h3]; simp [Group_Send, Function.comp_def]

theorem find_member_append (ms : List Member) (id : Nat) (vals : List GoValue)
    (hfresh : ∀ m ∈ ms, m.id < id) :
    ((ms ++ [({ id := id, inbox := [] } : Member)]).map
        (fun m : Member => { m with inbox := m.inbox ++ vals })).find?
      (fun m => m.id = id) = some ({ id := id, inbox := vals } : Member) := by
  induction ms with
  | nil => simp
  | cons m ms ih =>
    have hm : m.id ≠ id := Nat.ne_of_lt (hfresh m (List.mem_cons_self _ _))
    have ih2 := ih (fun x hx => hfresh x (List.mem_cons_of_mem _ hx))
    simp only [List.cons_append, List.map_cons, List.find?_cons]
    simp only [hm, decide_False]
    exact ih2

theorem broadcastName_pointer (pkg b : String) (u : GoType) (r : GoValue)
    (hstruct : Type_Kind u = Kind.Struct) :
    broadcastName (.ptr (.named pkg b u) (some r)) = some b := by
  simp [broadcastName, reflect_ValueOf, reflect_TypeOf, Value_Kind, Value_Elem, Type_Kind,
    Value_TypeName, Type_Name, hstruct]

theorem hasElem_pointer (t : GoType) (target : Option GoValue) :
    hasElem (.ptr t target) :=
  ⟨_, _, rfl, rfl⟩

theorem Save_pointer {σ : Type} (E : Engine σ) (db : Db σ) (pkg b : String) (u : GoType)
    (r : GoValue) (g : Nat) (dbc : Option Handle) (db1 : Db σ) (w2 : σ)
    (hstruct : Type_Kind u = Kind.Struct)
    (hg : db.bucketsubscriptions b = some g)
    (hres : GetDbForValue E (.ptr (.named pkg b u) (some r)) db = .ret (dbc, db1))
    (hw : E.call dbc (.Save (.ptr (.named pkg b u) (some r))) db1.env.world
      = .ret (none, w2)) :
    ∃ db2, Save E (.ptr (.named pkg b u) (some r)) db = .ret (none, db2) ∧
      db2.bucketsubscriptions = db.bucketsubscriptions ∧
      db2.env.nextMember = db.env.nextMember ∧
      db2.env.groups = setGroup db.env.groups g
        (Group_Send (db.env.groups g) (.ptr (.named pkg b u) (some r))) := by
  obtain ⟨-, hf2, hf3, -, hf5⟩ := GetDbForValue_frame E _ db dbc db1 hres
  have hb := broadcastName_pointer pkg b u r hstruct
  have hg1 : db1.bucketsubscriptions b = some g := by rw [hf2]; exact hg
  refine ⟨_, by simp [Save, callOn_eq E _ _ db dbc db1 hres, hw, hb]; rfl, ?_, ?_, ?_⟩
  · simp [publish, hg1, hf2]
  · simp [publish, hg1, hf5]
  · simp [publish, hg1, hf3]

theorem writesSucceed_cons {σ : Type} (E : Engine σ) (data : GoValue) (rest : List GoValue)
    (db : Db σ) (h : writesSucceed E (data :: rest) db = true) :
    ∃ dbc db1 w2 db2,
      GetDbForValue E data db = .ret (dbc, db1) ∧
      E.call dbc (.Save data) db1.env.world = .ret (none, w2) ∧
      Save E data db = .ret (none, db2) ∧
      writesSucceed E rest db2 = true := by
  unfold writesSucceed at h
  cases hG : GetDbForValue E data db with
  | panicked msg => simp [hG] at h
  | ret p =>
    obtain ⟨dbc, db1⟩ := p
    simp only [hG] at h
    cases hC : E.call dbc (.Save data) db1.env.world with
    | panicked msg => simp [hC] at h
    | ret q =>
      obtain ⟨err, w2⟩ := q
      cases err with
      | some e => simp [hC] at h
      | none =>
        simp only [hC] at h
        cases hS : Save E data db with
        | panicked msg => simp [hS] at h
        | ret s =>
          obtain ⟨err2, db2⟩ := s
          cases err2 with
          | some e => simp [hS] at h
          | none =>
            simp only [hS] at h
            exact ⟨dbc, db1, w2, db2, rfl, hC, rfl, h⟩

theorem saveAll_pointers {σ : Type} (E : Engine σ) (pkg b : String) (u : GoType) (g : Nat)
    (hstruct : Type_Kind u = Kind.Struct) (rs : List GoValue) :
    ∀ db : Db σ, db.bucketsubscriptions b = some g →
      writesSucceed E (pointersTo (.named pkg b u) rs) db = true →
      ∃ db2, saveAll E (pointersTo (.named pkg b u) rs) db = .ret (none, db2) ∧
        db2.bucketsubscriptions = db.bucketsubscriptions ∧
        db2.env.nextMember = db.env.nextMember ∧
        db2.env.groups g = sendAll (db.env.groups g) (pointersTo (.named pkg b u) rs) := by
  induction rs with
  | nil => intro db _ _; exact ⟨db, rfl, rfl, rfl, rfl⟩
  | cons r rs ih =>
    intro db hg hok
    simp only [pointersTo, List.map_cons] at hok
    obtain ⟨dbc, db0, w2, dbs, hres, hw, hS, hrest⟩ := writesSucceed_cons E _ _ db hok
    obtain ⟨db1, h1, h2, h3, h4⟩ := Save_pointer E db pkg b u r g dbc db0 w2 hstruct hg hres hw
    have hdb : dbs = db1 := by
      rw [hS] at h1
      simp only [Outcome.ret.injEq, Prod.mk.injEq, true_and] at h1
      exact h1
    subst hdb
    have hg1 : dbs.bucketsubscriptions b = some g := by rw [h2]; exact hg
    obtain ⟨db2, i1, i2, i3, i4⟩ := ih dbs hg1 hrest
    refine ⟨db2, ?_, by rw [i2, h2], by rw [i3, h3], ?_⟩
    · simp only [pointersTo, List.map_cons, saveAll, h1]
      exact i1
    · rw [i4, h4]
      simp [pointersTo, sendAll, setGroup]

mutual
theorem deepValueEqual_refl : ∀ v : GoValue, deepValueEqual v v = true
  | .nil => by simp [deepValueEqual]
  | .bool b => by simp [deepValueEqual]
  | .int n => by simp [deepValueEqual]
  | .str s => by simp [deepValueEqual]
  | .struct t fs => by simp [deepValueEqual, deepListEqual_refl fs]
  | .ptr e none => by simp [deepValueEqual]
  | .ptr e (some a) => by simp [deepValueEqual, deepValueEqual_refl a]
  | .slice e none => by simp [deepValueEqual]
  | .slice e (some l) => by simp [deepValueEqual, deepListEqual_refl l]
theorem deepListEqual_refl : ∀ l : List GoValue, deepListEqual l l = true
  | [] => by simp [deepListEqual]
  | a :: as => by simp [deepListEqual, deepValueEqual_refl a, deepListEqual_refl as]
end

theorem reflect_DeepEqual_refl (v : GoValue) : reflect_DeepEqual v v = true := by
  unfold reflect_DeepEqual
  cases h : reflect_TypeOf v with
  | none => rfl
  | some t => simp [deepValueEqual_refl]

/-- C5 as the code has it: after `SubscribeChanges(b)` returned member `m`, saving
`&r1 .. &rn` for records of the defined struct type `pkg.b`, each engine write
succeeding, returns nil and hands the group of `b` (and so the inbox of `m`) exactly
the arguments of `Save`, in order: the pointers `&r1 .. &rn`.  Each received value
deep-equals the pointer `&ri`; none deep-equals a value of type `pkg.b`, such as the
record `ri` itself. -/
theorem Save_broadcasts_pointers {σ : Type} (E : Engine σ) (db : Db σ) (pkg b : String)
    (u : GoType) (rs : List GoValue) (hstruct : Type_Kind u = Kind.Struct)
    (hinv : MembersInv db)
    (hok : writesSucceed E (pointersTo (.named pkg b u) rs) (SubscribeChanges b db).2 = true) :
    ∃ g db2,
      (SubscribeChanges b db).2.bucketsubscriptions b = some g ∧
      saveAll E (pointersTo (.named pkg b u) rs) (SubscribeChanges b db).2 = .ret (none, db2) ∧
      (db2.env.groups g).sent
        = ((SubscribeChanges b db).2.env.groups g).sent ++ pointersTo (.named pkg b u) rs ∧
      inboxOf db2 g (SubscribeChanges b db).1 = some (pointersTo (.named pkg b u) rs) ∧
      (∀ r ∈ rs, reflect_DeepEqual (.ptr (.named pkg b u) (some r))
        (.ptr (.named pkg b u) (some r)) = true) ∧
      ∀ d ∈ pointersTo (.named pkg b u) rs, ∀ x,
        reflect_TypeOf x = some (.named pkg b u) → reflect_DeepEqual d x = false := by
  have hdeep : ∀ d ∈ pointersTo (.named pkg b u) rs, ∀ x,
      reflect_TypeOf x = some (.named pkg b u) → reflect_DeepEqual d x = false := by
    intro d hd x hx
    simp only [pointersTo, List.mem_map] at hd
    obtain ⟨r, -, rfl⟩ := hd
    unfold reflect_DeepEqual
    rw [hx]
    simp [reflect_TypeOf]
  have hmem : ∃ g, (SubscribeChanges b db).2.bucketsubscriptions b = some g ∧
      ∃ old : List Member, (∀ m ∈ old, m.id < db.env.nextMember) ∧
        ((SubscribeChanges b db).2.env.groups g).members
          = old ++ [{ id := db.env.nextMember, inbox := [] }] := by
    cases hb : db.bucketsubscriptions b with
    | some g =>
      refine ⟨g, by simp [SubscribeChanges, hb], (db.env.groups g).members, hinv g, ?_⟩
      simp [SubscribeChanges, hb, setGroup, Group_Join]
    | none =>
      refine ⟨db.env.nextGroup, by simp [SubscribeChanges, hb, mapSet], [], by simp, ?_⟩
      simp [SubscribeChanges, hb, setGroup, Group_Join, bcast_NewGroup]
  obtain ⟨g, hg, old, hold, hms⟩ := hmem
  have hm1 : (SubscribeChanges b db).1 = db.env.nextMember := by
    unfold SubscribeChanges; cases db.bucketsubscriptions b <;> rfl
  obtain ⟨db2, h1, -, -, h4⟩ :=
    saveAll_pointers E pkg b u g hstruct rs (SubscribeChanges b db).2 hg hok
  obtain ⟨s1, -, s3⟩ := sendAll_spec (pointersTo (.named pkg b u) rs)
    ((SubscribeChanges b db).2.env.groups g)
  refine ⟨g, db2, hg, h1, by rw [h4, s1], ?_, fun r _ => reflect_DeepEqual_refl _, hdeep⟩
  unfold inboxOf
  rw [h4, s3, hms, hm1, find_member_append old _ _ hold]
  rfl

/-- Witness of the amended C5: `SubscribeChanges("User")` on a new store, then
`Save(&User{"bob"})` and `Save(&User{"eve"})`. -/
theorem Save_broadcasts_pointers_witness :
    Type_Kind (GoType.struct (.cons "Name" true .string .nil)) = Kind.Struct ∧
    MembersInv freshDb ∧
    writesSucceed okEngine
      (pointersTo tUser [.struct tUser [.str "bob"], .struct tUser [.str "eve"]])
      (SubscribeChanges "User" freshDb).2 = true ∧
    ∃ g db2,
      (SubscribeChanges "User" freshDb).2.bucketsubscriptions "User" = some g ∧
      saveAll okEngine (pointersTo tUser [.struct tUser [.str "bob"], .struct tUser [.str "eve"]])
        (SubscribeChanges "User" freshDb).2 = .ret (none, db2) ∧
      (db2.env.groups g).sent
        = ((SubscribeChanges "User" freshDb).2.env.groups g).sent
          ++ pointersTo tUser [.struct tUser [.str "bob"], .struct tUser [.str "eve"]] ∧
      inboxOf db2 g (SubscribeChanges "User" freshDb).1
        = some (pointersTo tUser [.struct tUser [.str "bob"], .struct tUser [.str "eve"]]) ∧
      (∀ r ∈ [GoValue.struct tUser [.str "bob"], GoValue.struct tUser [.str "eve"]],
        reflect_DeepEqual (.ptr tUser (some r)) (.ptr tUser (some r)) = true) ∧
      ∀ d ∈ pointersTo tUser [.struct tUser [.str "bob"], .struct tUser [.str "eve"]], ∀ x,
        reflect_TypeOf x = some tUser → reflect_DeepEqual d x = false :=
  ⟨rfl, fun _ _ hm => by simp [freshDb, New, emptyEnv, bcast_NewGroup] at hm, rfl,
   Save_broadcasts_pointers okEngine freshDb "main" "User"
     (.struct (.cons "Name" true .string .nil))
     [.struct tUser [.str "bob"], .struct tUser [.str "eve"]] rfl
     (fun _ _ hm => by simp [freshDb, New, emptyEnv, bcast_NewGroup] at hm) rfl⟩

/-- Counterexample to C5 as stated: after `SubscribeChanges("User")`, the value the
member receives from `Save(&User{Name: "bob"})` is the pointer `&User{Name: "bob"}`;
it deep-equals `&User{Name: "bob"}` and does not deep-equal `User{Name: "bob"}`. -/
theorem Save_broadcast_counterexample :
    ∃ db2, Save okEngine (userPtr "bob") subscribedDb = .ret (none, db2) ∧
      (SubscribeChanges "User" freshDb).1 = 0 ∧
      inboxOf db2 0 0 = some [userPtr "bob"] ∧
      reflect_DeepEqual (userPtr "bob") (.struct tUser [.str "bob"]) = false ∧
      reflect_DeepEqual (userPtr "bob") (userPtr "bob") = true :=
  ⟨_, rfl, rfl, rfl, by decide, by decide⟩

/-! ## The bucket identifier -/

theorem splitDot_ne_nil (cs : List Char) : splitDot cs ≠ [] := by
  cases cs with
  | nil => simp [splitDot]
  | cons c cs =>
    unfold splitDot
    split
    · simp
    · split <;> simp

theorem splitDot_no_dot (b : List Char) (hb : '.' ∉ b) : splitDot b = [b] := by
  induction b with
  | nil => rfl
  | cons c cs ih =>
    have hc : c ≠ '.' := fun h => hb (by simp [h])
    have hcs : '.' ∉ cs := fun h => hb (List.mem_cons_of_mem _ h)
    simp [splitDot, hc, ih hcs]

theorem splitDot_last (b : List Char) :
    ∀ a : List Char, ∃ seg rest, splitDot (a ++ '.' :: b) = seg :: rest ∧ rest ≠ [] ∧
      rest.getLast? = (splitDot b).getLast? := by
  intro a
  induction a with
  | nil =>
    exact ⟨[], splitDot b, by simp [splitDot], splitDot_ne_nil b, rfl⟩
  | cons c cs ih =>
    obtain ⟨seg, rest, h1, h2, h3⟩ := ih
    by_cases hc : c = '.'
    · refine ⟨[], seg :: rest, by simp [splitDot, hc, h1], by simp, ?_⟩
      rw [← h3]
      cases rest with
      | nil => exact absurd rfl h2
      | cons r rs => simp [List.getLast?_cons_cons]
    · exact ⟨c :: seg, rest, by simp [splitDot, hc, h1], h2, h3⟩

theorem lastSegment_qualified (pkg n : String) (hdot : '.' ∉ n.toList) :
    lastSegment (pkg ++ "." ++ n) = n := by
  obtain ⟨seg, rest, h1, h2, h3⟩ := splitDot_last n.toList pkg.toList
  have hl : (pkg ++ "." ++ n).toList = pkg.toList ++ '.' :: n.toList := by
    simp [String.toList]
  unfold lastSegment strings_Split
  rw [hl, h1, List.getLastD_eq_getLast?, List.getLast?_map]
  cases rest with
  | nil => exact absurd rfl h2
  | cons r rs =>
    rw [List.getLast?_cons_cons, h3, splitDot_no_dot _ hdot]
    rfl

theorem bucketIdentifier_named (pkg n : String) (u : GoType) (r : GoValue)
    (hstruct : Type_Kind u = Kind.Struct) (hdot : '.' ∉ n.toList) :
    bucketIdentifier (.ptr (.named pkg n u) (some r)) = .ret (some n) := by
  have hl := lastSegment_qualified pkg n hdot
  by_cases hn : n = ""
  · subst hn
    simp only [bucketIdentifier, reflect_TypeOf, Type_Elem, Type_String, hl]
    simp [reflect_ValueOf, reflect_TypeOf, Value_Kind, Value_Elem, Type_Kind, Value_TypeName,
      Type_Name, hstruct]
  · simp only [bucketIdentifier, reflect_TypeOf, Type_Elem, Type_String, hl]
    simp [hn]

/-- C10 as the code has it: for a pointer to a value of a defined struct type whose
name contains no dot, the identifier that selects the storage bucket (last
dot-separated piece of the text of the pointed-to type) and the name under which
`Save` looks up the group (`Type().Name()` of the dereferenced value) are both the
type's name; a `Save` whose engine write succeeds returns nil after publishing under
that name on the store the bucket of that name was resolved on. -/
theorem Save_same_identifier {σ : Type} (E : Engine σ) (db : Db σ) (pkg n : String)
    (u : GoType) (r : GoValue) (hstruct : Type_Kind u = Kind.Struct)
    (hdot : '.' ∉ n.toList) :
    bucketIdentifier (.ptr (.named pkg n u) (some r)) = .ret (some n) ∧
    broadcastName (.ptr (.named pkg n u) (some r)) = some n ∧
    GetDbForValue E (.ptr (.named pkg n u) (some r)) db = .ret (openCached E n db) ∧
    ∀ w, E.call (openCached E n db).1 (.Save (.ptr (.named pkg n u) (some r)))
        (openCached E n db).2.env.world = .ret (none, w) →
      Save E (.ptr (.named pkg n u) (some r)) db
        = .ret (none, publish n (.ptr (.named pkg n u) (some r))
            { (openCached E n db).2 with env := { (openCached E n db).2.env with
                world := w,
                trace := (openCached E n db).2.env.trace ++
                  [Event.called (openCached E n db).1
                    (.Save (.ptr (.named pkg n u) (some r)))] } }) := by
  have hb := bucketIdentifier_named pkg n u r hstruct hdot
  have hp := broadcastName_pointer pkg n u r hstruct
  have hg : GetDbForValue E (.ptr (.named pkg n u) (some r)) db
      = .ret (openCached E n db) := by
    simp [GetDbForValue, hb]
  have hg2 : GetDbForValue E (.ptr (.named pkg n u) (some r)) db
      = .ret ((openCached E n db).1, (openCached E n db).2) := hg
  refine ⟨hb, hp, hg, ?_⟩
  intro w hw
  unfold Save
  rw [callOn_eq E _ _ db (openCached E n db).1 (openCached E n db).2 hg2, hw]
  simp only [hp]

/-- Witness of the amended C10: `&User{Name: "bob"}`, whose type `main.User` has a
name without dot; the bucket identifier and the broadcast name are both "User". -/
theorem Save_same_identifier_witness :
    Type_Kind (GoType.struct (.cons "Name" true .string .nil)) = Kind.Struct ∧
    '.' ∉ "User".toList ∧
    bucketIdentifier (userPtr "bob") = .ret (some "User") ∧
    broadcastName (userPtr "bob") = some "User" :=
  ⟨rfl, by decide,
   (Save_same_identifier okEngine freshDb "main" "User"
     (.struct (.cons "Name" true .string .nil)) (.struct tUser [.str "bob"]) rfl
     (by decide)).1,
   (Save_same_identifier okEngine freshDb "main" "User"
     (.struct (.cons "Name" true .string .nil)) (.struct tUser [.str "bob"]) rfl
     (by decide)).2.1⟩

/-- Counterexample to C10 as stated.  For `&Box[User]{}`, a pointer to a value of the
defined struct type `Box[main.User]`, the engine write succeeds, the storage bucket
is keyed "User]" and the group is looked up under "Box[main.User]": the value reaches
the group registered under that name.  For `&struct{ Name string }{"bob"}`, on an
engine that accepts the write, the storage bucket is keyed by the text of the type
and the group is looked up under the empty name. -/
theorem Save_identifier_counterexample :
    (Value_Kind (Value_Elem (reflect_ValueOf boxPtr)) = Kind.Struct ∧
      bucketIdentifier boxPtr = .ret (some "User]") ∧
      broadcastName boxPtr = some "Box[main.User]" ∧
      ∃ db2, Save okEngine boxPtr (SubscribeChanges "Box[main.User]" freshDb).2
          = .ret (none, db2) ∧
        db2.dbmap "User]" = some (some 0) ∧
        db2.dbmap "Box[main.User]" = none ∧
        db2.bucketsubscriptions "Box[main.User]" = some 0 ∧
        db2.bucketsubscriptions "User]" = none ∧
        (db2.env.groups 0).sent = [boxPtr]) ∧
    (Value_Kind (Value_Elem (reflect_ValueOf anonPtr)) = Kind.Struct ∧
      bucketIdentifier anonPtr = .ret (some "struct \x7b Name string \x7d") ∧
      broadcastName anonPtr = some "" ∧
      ∃ db2, Save okEngine anonPtr (SubscribeChanges "" freshDb).2 = .ret (none, db2) ∧
        db2.dbmap "struct \x7b Name string \x7d" = some (some 0) ∧
        db2.dbmap "" = none ∧
        db2.bucketsubscriptions "" = some 0 ∧
        (db2.env.groups 0).sent = [anonPtr]) :=
  ⟨⟨rfl, by decide, rfl, _, rfl, rfl, rfl, rfl, rfl, rfl⟩,
   ⟨rfl, by decide, rfl, _, rfl, rfl, rfl, rfl, rfl⟩⟩

/-! ## Drop -/

theorem lookup_filter_ne (fs : List (String × List GoValue)) (file : String) :
    (fs.filter (fun f => f.1 ≠ file)).lookup file = none := by
  induction fs with
  | nil => rfl
  | cons f fs ih =>
    by_cases hf : f.1 = file
    · rw [List.filter_cons_of_neg (by simp [hf])]
      exact ih
    · have hne : (file == f.1) = false := by
        simp only [beq_eq_false_iff_ne, ne_eq]
        exact fun h => hf h.symm
      simp only [List.filter, hf, ne_eq, not_false_eq_true, decide_True]
      obtain ⟨k, v⟩ := f
      simp only [List.lookup] at *
      simp only [hne]
      exact ih

theorem refEngine_open_after_remove (openErr : String → Option Err)
    (saveErr : GoValue → Option Err) (file : String) (fresh : Handle) (w w2 : Files)
    (h : (refEngine openErr saveErr).Open file fresh
      ((refEngine openErr saveErr).osRemove file w) = (none, w2)) :
    w2.visible fresh = [] := by
  simp only [refEngine] at h
  cases ho : openErr file with
  | some e => simp [ho] at h
  | none =>
    simp only [ho, lookup_filter_ne, Option.isSome_none, Bool.false_eq_true, if_false,
      Prod.mk.injEq, true_and] at h
    subst h
    simp [Files.visible, List.lookup]

theorem openCached_miss {σ : Type} (E : Engine σ) (name : String) (db : Db σ)
    (hc : db.dbmap name = none) :
    ∃ rest,
      (openCached E name db).2.env.trace
        = db.env.trace ++
          Event.opened (db.path ++ "/" ++ name ++ ".db") (openCached E name db).1 :: rest ∧
      (openCached E name db).2.env.world
        = (E.Open (db.path ++ "/" ++ name ++ ".db") db.env.nextHandle db.env.world).2 ∧
      ((E.Open (db.path ++ "/" ++ name ++ ".db") db.env.nextHandle db.env.world).1 = none →
        (openCached E name db).1 = some db.env.nextHandle) ∧
      ((openCached E name db).1 = none ∨ (openCached E name db).1 = some db.env.nextHandle ∧
        (E.Open (db.path ++ "/" ++ name ++ ".db") db.env.nextHandle db.env.world).1 = none) := by
  unfold openCached
  cases ho : E.Open (db.path ++ "/" ++ name ++ ".db") db.env.nextHandle db.env.world with
  | mk err w =>
    cases err with
    | none => exact ⟨[], by simp [hc, ho]⟩
    | some e => exact ⟨[Event.logged e], by simp [hc, ho]⟩

/-- C7 as the code has it: `Drop(n)` calls `os.Remove` on `path/n.db` and does
nothing else; its effect depends on `path` and the environment only, and `dbmap`,
`bucketsubscriptions` and the groups are as before.  For a defined struct type whose
name `n` contains no dot, `GetDbForValue` on a store without cached handle for `n`
opens that same file.  So a store with an empty cache created at the same path after
`Drop(n)` resolves the type by opening the file that was just removed: the engine
state afterwards is that of `Open` after `osRemove` of the one file, and the handle
is a new one exactly when that open succeeds; on an engine for which a file opened
right after its removal shows no records, no record is visible through it. -/
theorem Drop_removes_bucket_file {σ : Type} (E : Engine σ) (db : Db σ) (pkg n : String)
    (u : GoType) (r : GoValue) (visible : Handle → σ → List GoValue)
    (hstruct : Type_Kind u = Kind.Struct) (hdot : '.' ∉ n.toList)
    (hlaw : ∀ file fresh w w2,
      E.Open file fresh (E.osRemove file w) = (none, w2) → visible fresh w2 = []) :
    ((Drop E n db).env.world = E.osRemove (db.path ++ "/" ++ n ++ ".db") db.env.world ∧
      (Drop E n db).env.trace
        = db.env.trace ++ [Event.removed (db.path ++ "/" ++ n ++ ".db")] ∧
      (Drop E n db).path = db.path ∧
      (Drop E n db).dbmap = db.dbmap ∧
      (Drop E n db).bucketsubscriptions = db.bucketsubscriptions ∧
      (Drop E n db).env.groups = db.env.groups) ∧
    (∀ db0 : Db σ, db0.path = db.path → db0.env = db.env →
      (Drop E n db0).env = (Drop E n db).env) ∧
    (∀ db0 : Db σ, db0.dbmap n = none →
      ∃ h db1 rest, GetDbForValue E (.ptr (.named pkg n u) (some r)) db0 = .ret (h, db1) ∧
        db1.env.trace
          = db0.env.trace ++ Event.opened (db0.path ++ "/" ++ n ++ ".db") h :: rest ∧
        db1.env.world
          = (E.Open (db0.path ++ "/" ++ n ++ ".db") db0.env.nextHandle db0.env.world).2) ∧
    ∃ h db1, GetDbForValue E (.ptr (.named pkg n u) (some r)) (New db.path (Drop E n db).env)
        = .ret (h, db1) ∧
      db1.env.world
        = (E.Open (db.path ++ "/" ++ n ++ ".db") db.env.nextHandle
            (E.osRemove (db.path ++ "/" ++ n ++ ".db") db.env.world)).2 ∧
      (((E.Open (db.path ++ "/" ++ n ++ ".db") db.env.nextHandle
          (E.osRemove (db.path ++ "/" ++ n ++ ".db") db.env.world)).1 = none →
        h = some db.env.nextHandle)) ∧
      (((E.Open (db.path ++ "/" ++ n ++ ".db") db.env.nextHandle
          (E.osRemove (db.path ++ "/" ++ n ++ ".db") db.env.world)).1 ≠ none →
        h = none)) ∧
      ∀ hh, h = some hh → visible hh db1.env.world = [] := by
  have hb := bucketIdentifier_named pkg n u r hstruct hdot
  have hg : ∀ db0 : Db σ, GetDbForValue E (.ptr (.named pkg n u) (some r)) db0
      = .ret ((openCached E n db0).1, (openCached E n db0).2) := by
    intro db0; simp [GetDbForValue, hb]
  refine ⟨by simp [Drop, dropFile], ?_, ?_, ?_⟩
  · intro db0 hp he
    simp [Drop, hp, he]
  · intro db0 hc
    obtain ⟨rest, h1, h2, -, -⟩ := openCached_miss E n db0 hc
    exact ⟨_, _, rest, hg db0, h1, h2⟩
  · have hc : (New db.path (Drop E n db).env).dbmap n = none := rfl
    obtain ⟨rest, -, h2, h3, h4⟩ := openCached_miss E n (New db.path (Drop E n db).env) hc
    refine ⟨_, _, hg _, h2, h3, ?_, ?_⟩
    · intro hne
      rcases h4 with h4 | ⟨-, h5⟩
      · exact h4
      · exact absurd h5 hne
    · intro hh hhh
      rcases h4 with h4 | ⟨h4, h5⟩
      · rw [h4] at hhh; simp at hhh
      · rw [h4] at hhh
        simp only [Option.some.injEq] at hhh
        subst hhh
        rw [h2]
        apply hlaw (db.path ++ "/" ++ n ++ ".db")
          (New db.path (Drop E n db).env).env.nextHandle db.env.world
        have hw : (New db.path (Drop E n db).env).env.world
            = E.osRemove (db.path ++ "/" ++ n ++ ".db") db.env.world := rfl
        rw [hw] at h5 ⊢
        exact Prod.ext h5 rfl

/-- Witness of the amended C7: after `Save(&User{Name: "bob"})` the record is visible
through handle 0; after `Drop("User")` a new store at the same path resolves
`&User{}` to the new handle 1, through which no record is visible. -/
theorem Drop_removes_bucket_file_witness :
    savedDb.env.world.visible 0 = [userPtr "bob"] ∧
    Type_Kind (GoType.struct (.cons "Name" true .string .nil)) = Kind.Struct ∧
    '.' ∉ "User".toList ∧
    GetDbForValue okEngine (userPtr "eve")
        (New savedDb.path (Drop okEngine "User" savedDb).env)
      = .ret (some 1,
          (openCached okEngine "User" (New savedDb.path (Drop okEngine "User" savedDb).env)).2) ∧
    ∃ h db1, GetDbForValue okEngine (userPtr "eve")
        (New savedDb.path (Drop okEngine "User" savedDb).env) = .ret (h, db1) ∧
      db1.env.world
        = (okEngine.Open (savedDb.path ++ "/" ++ "User" ++ ".db") savedDb.env.nextHandle
            (okEngine.osRemove (savedDb.path ++ "/" ++ "User" ++ ".db")
              savedDb.env.world)).2 ∧
      (((okEngine.Open (savedDb.path ++ "/" ++ "User" ++ ".db") savedDb.env.nextHandle
          (okEngine.osRemove (savedDb.path ++ "/" ++ "User" ++ ".db")
            savedDb.env.world)).1 = none →
        h = some savedDb.env.nextHandle)) ∧
      (((okEngine.Open (savedDb.path ++ "/" ++ "User" ++ ".db") savedDb.env.nextHandle
          (okEngine.osRemove (savedDb.path ++ "/" ++ "User" ++ ".db")
            savedDb.env.world)).1 ≠ none →
        h = none)) ∧
      ∀ hh, h = some hh → db1.env.world.visible hh = [] :=
  ⟨rfl, rfl, by decide, rfl,
   (Drop_removes_bucket_file okEngine savedDb "main" "User"
     (.struct (.cons "Name" true .string .nil)) (.struct tUser [.str "eve"])
     (fun h w => w.visible h) rfl (by decide)
     (fun file fresh w w2 h => refEngine_open_after_remove _ _ file fresh w w2 h)).2.2.2⟩

/-- Counterexample to C7 as stated: `Box[main.User]` is a defined struct type with
simple name "Box[main.User]".  After `Save(&Box[User]{})` the record is in the file
`/data/User].db`; `Drop("Box[main.User]")` calls `os.Remove` on
`/data/Box[main.User].db`, the storage file stays, and a store with an empty cache
created at the same path resolves the type to a new handle through which the earlier
record is still visible. -/
theorem Drop_other_file_counterexample :
    Type_Name tBox = "Box[main.User]" ∧
    Type_Kind tBox = Kind.Struct ∧
    savedBoxDb.env.world.files.map Prod.fst = ["/data/User].db"] ∧
    savedBoxDb.env.world.visible 0 = [boxPtr] ∧
    (Drop okEngine "Box[main.User]" savedBoxDb).env.trace
      = savedBoxDb.env.trace ++ [Event.removed "/data/Box[main.User].db"] ∧
    (Drop okEngine "Box[main.User]" savedBoxDb).env.world.files.map Prod.fst
      = ["/data/User].db"] ∧
    GetDbForValue okEngine boxPtr
        (New savedBoxDb.path (Drop okEngine "Box[main.User]" savedBoxDb).env)
      = .ret (some 1,
          (openCached okEngine "User]"
            (New savedBoxDb.path (Drop okEngine "Box[main.User]" savedBoxDb).env)).2) ∧
    (openCached okEngine "User]"
        (New savedBoxDb.path (Drop okEngine "Box[main.User]" savedBoxDb).env)).2.env.trace
      = savedBoxDb.env.trace ++ [Event.removed "/data/Box[main.User].db",
          Event.opened "/data/User].db" (some 1)] ∧
    (openCached okEngine "User]"
        (New savedBoxDb.path
          (Drop okEngine "Box[main.User]" savedBoxDb).env)).2.env.world.visible 1
      = [boxPtr] :=
  ⟨rfl, rfl, rfl, rfl, rfl, rfl, rfl, rfl, rfl⟩

/-! ## The invariants hold on every store built with the operations -/

theorem callOn_inv {σ : Type} (E : Engine σ) (x : GoValue) (c : EngineCall) (db : Db σ)
    (dbc : Option Handle) (err : Option Err) (db2 : Db σ) (hinv : CacheInv db)
    (hcall : callOn E x c db = .ret (dbc, err, db2)) : CacheInv db2 := by
  unfold callOn at hcall
  cases hg : GetDbForValue E x db with
  | panicked msg => simp [hg] at hcall
  | ret r =>
    obtain ⟨d, db1⟩ := r
    have hi := GetDbForValue_inv E x db d db1 hinv hg
    simp only [hg] at hcall
    cases hc : E.call d c db1.env.world with
    | panicked msg => simp [hc] at hcall
    | ret q =>
      obtain ⟨e, w⟩ := q
      simp only [hc, Outcome.ret.injEq, Prod.mk.injEq] at hcall
      obtain ⟨-, -, rfl⟩ := hcall
      exact hi

theorem Save_inv {σ : Type} (E : Engine σ) (data : GoValue) (db : Db σ)
    (err : Option Err) (db2 : Db σ) (hinv : CacheInv db)
    (hs : Save E data db = .ret (err, db2)) : CacheInv db2 := by
  unfold Save at hs
  cases hc : callOn E data (.Save data) db with
  | panicked msg => simp [hc] at hs
  | ret r =>
    obtain ⟨d, e, db1⟩ := r
    have hi := callOn_inv E data _ db d e db1 hinv hc
    cases e with
    | some e =>
      simp only [hc, Outcome.ret.injEq, Prod.mk.injEq] at hs
      obtain ⟨-, rfl⟩ := hs
      exact hi
    | none =>
      simp only [hc] at hs
      cases hb : broadcastName data with
      | none =>
        simp only [hb, Outcome.ret.injEq, Prod.mk.injEq] at hs
        obtain ⟨-, rfl⟩ := hs
        exact hi
      | some name =>
        simp only [hb, Outcome.ret.injEq, Prod.mk.injEq] at hs
        obtain ⟨-, rfl⟩ := hs
        obtain ⟨-, p2, p3⟩ := publish_subscriptions name data db1
        unfold CacheInv
        rw [p2, p3]
        exact hi

theorem passThrough_inv {σ : Type} (E : Engine σ) (x : GoValue) (c : EngineCall) (db : Db σ)
    (err : Option Err) (db2 : Db σ) (hinv : CacheInv db)
    (hs : passThrough E x c db = .ret (err, db2)) : CacheInv db2 := by
  unfold passThrough at hs
  cases hc : callOn E x c db with
  | panicked msg => simp [hc] at hs
  | ret r =>
    obtain ⟨d, e, db1⟩ := r
    simp only [hc, Outcome.ret.injEq, Prod.mk.injEq] at hs
    obtain ⟨-, rfl⟩ := hs
    exact callOn_inv E x c db d e db1 hinv hc

theorem Drop_inv {σ : Type} (E : Engine σ) (n : String) (db : Db σ) (hinv : CacheInv db) :
    CacheInv (Drop E n db) := hinv

theorem SubscribeChanges_inv {σ : Type} (b : String) (db : Db σ) (hinv : CacheInv db) :
    CacheInv (SubscribeChanges b db).2 := by
  unfold SubscribeChanges
  cases db.bucketsubscriptions b <;> exact hinv

theorem MembersInv_SubscribeChanges {σ : Type} (b : String) (db : Db σ)
    (hinv : MembersInv db) : MembersInv (SubscribeChanges b db).2 := by
  intro g m hm
  cases hb : db.bucketsubscriptions b with
  | some g0 =>
    simp only [SubscribeChanges, hb, setGroup, Group_Join] at hm ⊢
    split at hm
    · simp only [List.mem_append, List.mem_singleton] at hm
      rcases hm with hm | rfl
      · exact Nat.lt_succ_of_lt (hinv g0 m hm)
      · exact Nat.lt_succ_self _
    · exact Nat.lt_succ_of_lt (hinv g m hm)
  | none =>
    simp only [SubscribeChanges, hb, setGroup, Group_Join, bcast_NewGroup] at hm ⊢
    split at hm
    · simp only [List.nil_append, List.mem_singleton] at hm
      subst hm
      exact Nat.lt_succ_self _
    · exact Nat.lt_succ_of_lt (hinv g m hm)

theorem MembersInv_publish {σ : Type} (name : String) (data : GoValue) (db : Db σ)
    (hinv : MembersInv db) : MembersInv (publish name data db) := by
  intro g m hm
  unfold publish at hm ⊢
  cases hb : db.bucketsubscriptions name with
  | none => simp only [hb] at hm ⊢; exact hinv g m hm
  | some g0 =>
    simp only [hb, setGroup, Group_Send] at hm ⊢
    split at hm
    · simp only [List.mem_map] at hm
      obtain ⟨m0, hm0, rfl⟩ := hm
      exact hinv g0 m0 hm0
    · exact hinv g m hm

theorem MembersInv_Save {σ : Type} (E : Engine σ) (data : GoValue) (db : Db σ)
    (err : Option Err) (db2 : Db σ) (hinv : MembersInv db)
    (hs : Save E data db = .ret (err, db2)) : MembersInv db2 := by
  unfold Save at hs
  cases hc : callOn E data (.Save data) db with
  | panicked msg => simp [hc] at hs
  | ret r =>
    obtain ⟨d, e, db1⟩ := r
    have hi : MembersInv db1 := by
      unfold callOn at hc
      cases hg : GetDbForValue E data db with
      | panicked msg => simp [hg] at hc
      | ret q =>
        obtain ⟨d0, db0⟩ := q
        obtain ⟨-, -, f3, -, f5⟩ := GetDbForValue_frame E data db d0 db0 hg
        simp only [hg] at hc
        cases hk : E.call d0 (.Save data) db0.env.world with
        | panicked msg => simp [hk] at hc
        | ret z =>
          obtain ⟨e0, w⟩ := z
          simp only [hk, Outcome.ret.injEq, Prod.mk.injEq] at hc
          obtain ⟨-, -, rfl⟩ := hc
          intro g m hm
          simp only [f3, f5] at hm ⊢
          exact hinv g m hm
    cases e with
    | some e =>
      simp only [hc, Outcome.ret.injEq, Prod.mk.injEq] at hs
      obtain ⟨-, rfl⟩ := hs
      exact hi
    | none =>
      simp only [hc] at hs
      cases hb : broadcastName data with
      | none =>
        simp only [hb, Outcome.ret.injEq, Prod.mk.injEq] at hs
        obtain ⟨-, rfl⟩ := hs
        exact hi
      | some name =>
        simp only [hb, Outcome.ret.injEq, Prod.mk.injEq] at hs
        obtain ⟨-, rfl⟩ := hs
        exact MembersInv_publish name data db1 hi

end StormWrapper

namespace Tools

open StormWrapper

/-! ## FillStruct -/

theorem findField_ge : ∀ (fs : FieldList) (k : String) (s i : Nat) (a : Bool × GoType),
    findField fs k s = some (i, a) → s ≤ i
  | .nil, k, s, i, a, h => by simp [findField] at h
  | .cons n ex t rest, k, s, i, a, h => by
    unfold findField at h
    split at h
    · simp only [Option.some.injEq, Prod.mk.injEq] at h
      exact Nat.le_of_eq h.1
    · exact Nat.le_of_succ_le (findField_ge rest k (s + 1) i a h)

theorem findField_lt : ∀ (fs : FieldList) (k : String) (s i : Nat) (a : Bool × GoType),
    findField fs k s = some (i, a) → i < s + Fields_length fs
  | .nil, k, s, i, a, h => by simp [findField] at h
  | .cons n ex t rest, k, s, i, a, h => by
    unfold findField at h
    split at h
    · simp only [Option.some.injEq, Prod.mk.injEq] at h
      simp only [Fields_length]
      omega
    · have := findField_lt rest k (s + 1) i a h
      simp only [Fields_length]
      omega

theorem findField_inj : ∀ (fs : FieldList) (k1 k2 : String) (s i : Nat) (a b : Bool × GoType),
    findField fs k1 s = some (i, a) → findField fs k2 s = some (i, b) → k1 = k2
  | .nil, k1, k2, s, i, a, b, h, _ => by simp [findField] at h
  | .cons n ex t rest, k1, k2, s, i, a, b, h1, h2 => by
    unfold findField at h1 h2
    split at h1 <;> split at h2
    · rename_i e1 e2; rw [← e1, ← e2]
    · simp only [Option.some.injEq, Prod.mk.injEq] at h1
      have := findField_ge rest k2 (s + 1) i b h2
      omega
    · simp only [Option.some.injEq, Prod.mk.injEq] at h2
      have := findField_ge rest k1 (s + 1) i a h1
      omega
    · exact findField_inj rest k1 k2 (s + 1) i a b h1 h2

theorem fieldByName_inj (fs : FieldList) (k1 k2 : String) (i : Nat) (a b : Bool × GoType)
    (h1 : fieldByName fs k1 = some (i, a)) (h2 : fieldByName fs k2 = some (i, b)) :
    k1 = k2 := by
  unfold fieldByName at h1 h2
  split at h1
  · simp at h1
  · split at h2
    · simp at h2
    · exact findField_inj fs k1 k2 0 i a b h1 h2

theorem fieldByName_lt (fs : FieldList) (k : String) (i : Nat) (a : Bool × GoType)
    (h : fieldByName fs k = some (i, a)) : i < Fields_length fs := by
  unfold fieldByName at h
  split at h
  · simp at h
  · have := findField_lt fs k 0 i a h
    omega

theorem fillLoop_step (t : GoType) (k : String) (v : GoValue) (rest : List (String × GoValue))
    (vals : List GoValue) (i : Nat) (ft : GoType)
    (h1 : fieldByName (Type_fields t) k = some (i, true, ft))
    (h2 : reflect_TypeOf v = some ft) :
    fillLoop t ((k, v) :: rest) vals = fillLoop t rest (vals.set i v) := by
  simp [fillLoop, h1, h2]

theorem fillLoop_ok (t : GoType) (m : List (String × GoValue)) :
    ∀ vals : List GoValue, (∀ x ∈ m, entryOk t x) →
      ∃ vals2, fillLoop t m vals = .ret (none, vals2) ∧ vals2.length = vals.length ∧
        (∀ j, (∀ k v i a, (k, v) ∈ m → fieldByName (Type_fields t) k = some (i, a) → i ≠ j) →
          vals2[j]? = vals[j]?) ∧
        ((m.map Prod.fst).Nodup →
          ∀ k v i a, (k, v) ∈ m → fieldByName (Type_fields t) k = some (i, a) →
            i < vals.length → vals2[i]? = some v) := by
  induction m with
  | nil =>
    intro vals _
    exact ⟨vals, rfl, rfl, fun _ _ => rfl, fun _ k v i a hm => by simp at hm⟩
  | cons x rest ih =>
    intro vals hall
    obtain ⟨k0, v0⟩ := x
    obtain ⟨i0, ft0, hf0, ht0⟩ := hall (k0, v0) (List.mem_cons_self _ _)
    obtain ⟨vals2, r1, r2, r3, r4⟩ := ih (vals.set i0 v0)
      (fun y hy => hall y (List.mem_cons_of_mem _ hy))
    refine ⟨vals2, ?_, ?_, ?_, ?_⟩
    · rw [fillLoop_step t k0 v0 rest vals i0 ft0 hf0 ht0]; exact r1
    · rw [r2, List.length_set]
    · intro j hj
      have hne : i0 ≠ j := hj k0 v0 i0 _ (List.mem_cons_self _ _) hf0
      rw [r3 j (fun k v i a hm hf => hj k v i a (List.mem_cons_of_mem _ hm) hf)]
      exact List.getElem?_set_ne hne
    · intro hnd k v i a hm hf hi
      simp only [List.map_cons, List.nodup_cons] at hnd
      obtain ⟨hk0, hnd2⟩ := hnd
      rcases List.mem_cons.1 hm with heq | hmem
      · simp only [Prod.mk.injEq] at heq
        obtain ⟨rfl, rfl⟩ := heq
        rw [hf0] at hf
        simp only [Option.some.injEq, Prod.mk.injEq] at hf
        obtain ⟨rfl, -⟩ := hf
        rw [r3 i0 ?_]
        · exact List.getElem?_set_self hi
        · intro k2 v2 i2 a2 hm2 hf2 hi2
          subst hi2
          have := fieldByName_inj (Type_fields t) k2 k i2 a2 _ hf2 hf0
          subst this
          exact hk0 (List.mem_map.2 ⟨(k2, v2), hm2, rfl⟩)
      · exact r4 hnd2 k v i a hmem hf (by rw [List.length_set]; exact hi)

theorem fillLoop_none_inv (t : GoType) (m : List (String × GoValue)) :
    ∀ vals vals2 : List GoValue, fillLoop t m vals = .ret (none, vals2) →
      ∀ x ∈ m, entryOk t x := by
  induction m with
  | nil => intro _ _ _ x hx; simp at hx
  | cons y rest ih =>
    intro vals vals2 h x hx
    obtain ⟨k0, v0⟩ := y
    unfold fillLoop at h
    cases hf : fieldByName (Type_fields t) k0 with
    | none => simp [hf] at h
    | some p =>
      obtain ⟨i, ex, ft⟩ := p
      simp only [hf] at h
      cases ex with
      | false => simp at h
      | true =>
        simp only [Bool.true_eq_false, if_false] at h
        cases hv : reflect_TypeOf v0 with
        | none => simp [hv] at h
        | some vt =>
          simp only [hv] at h
          by_cases hne : ft = vt
          · subst hne
            simp only [ne_eq, not_true_eq_false, if_false] at h
            rcases List.mem_cons.1 hx with rfl | hmem
            · exact ⟨i, ft, hf, hv⟩
            · exact ih _ _ h x hmem
          · simp [hne] at h

theorem fillLoop_append (t : GoType) (pre rest : List (String × GoValue)) :
    ∀ vals : List GoValue, (∀ x ∈ pre, entryOk t x) →
      ∃ vals1, fillLoop t (pre ++ rest) vals = fillLoop t rest vals1 := by
  induction pre with
  | nil => intro vals _; exact ⟨vals, rfl⟩
  | cons x pre ih =>
    intro vals hall
    obtain ⟨k0, v0⟩ := x
    obtain ⟨i0, ft0, hf0, ht0⟩ := hall (k0, v0) (List.mem_cons_self _ _)
    obtain ⟨vals1, h1⟩ := ih (vals.set i0 v0) (fun y hy => hall y (List.mem_cons_of_mem _ hy))
    exact ⟨vals1, by rw [List.cons_append, fillLoop_step t k0 v0 _ vals i0 ft0 hf0 ht0, h1]⟩

theorem FillStruct_eq (m : List (String × GoValue)) (e t : GoType) (vals : List GoValue)
    (hkind : Type_Kind e = Kind.Struct) :
    FillStruct m (.ptr e (some (.struct t vals))) =
      match fillLoop e m vals with
      | .panicked msg => .panicked msg
      | .ret (err, vals2) => .ret (err, .ptr e (some (.struct t vals2))) := by
  cases m with
  | nil => simp [FillStruct, reflect_ValueOf, reflect_TypeOf, Type_Kind, fillLoop]
  | cons x rest =>
    simp [FillStruct, reflect_ValueOf, reflect_TypeOf, Type_Kind, Value_Elem, hkind]

theorem first_failing (t : GoType) (m : List (String × GoValue)) :
    (∀ x ∈ m, entryOk t x) ∨
    ∃ pre k v post, m = pre ++ (k, v) :: post ∧ (∀ x ∈ pre, entryOk t x) ∧
      ¬ entryOk t (k, v) := by
  induction m with
  | nil => left; intro x hx; simp at hx
  | cons y rest ih =>
    obtain ⟨k0, v0⟩ := y
    by_cases h0 : entryOk t (k0, v0)
    · rcases ih with hall | ⟨pre, k, v, post, hm, hpre, hbad⟩
      · left
        intro x hx
        rcases List.mem_cons.1 hx with rfl | hmem
        · exact h0
        · exact hall x hmem
      · right
        refine ⟨(k0, v0) :: pre, k, v, post, by rw [hm]; rfl, ?_, hbad⟩
        intro x hx
        rcases List.mem_cons.1 hx with rfl | hmem
        · exact h0
        · exact hpre x hmem
    · right
      exact ⟨[], k0, v0, rest, rfl, fun x hx => by simp at hx, h0⟩

theorem entry_cases (t : GoType) (k : String) (v : GoValue) (h : ¬ entryOk t (k, v)) :
    fieldByName (Type_fields t) k = none ∨
    (∃ i ft, fieldByName (Type_fields t) k = some (i, false, ft)) ∨
    (∃ i ft vt, fieldByName (Type_fields t) k = some (i, true, ft) ∧
      reflect_TypeOf v = some vt ∧ ft ≠ vt) ∨
    (∃ i ft, fieldByName (Type_fields t) k = some (i, true, ft) ∧ reflect_TypeOf v = none) := by
  cases hf : fieldByName (Type_fields t) k with
  | none => left; rfl
  | some p =>
    obtain ⟨i, ex, ft⟩ := p
    cases ex with
    | false => right; left; exact ⟨i, ft, rfl⟩
    | true =>
      cases hv : reflect_TypeOf v with
      | none => right; right; right; exact ⟨i, ft, rfl, rfl⟩
      | some vt =>
        right; right; left
        refine ⟨i, ft, vt, rfl, rfl, ?_⟩
        intro heq
        subst heq
        exact h ⟨i, ft, hf, hv⟩

theorem fillLoop_reject (t : GoType) (k : String) (v : GoValue)
    (post : List (String × GoValue)) (vals : List GoValue) :
    (fieldByName (Type_fields t) k = none →
      fillLoop t ((k, v) :: post) vals
        = .ret (some ("No such field: " ++ k ++ " in obj"), vals)) ∧
    (∀ i ft, fieldByName (Type_fields t) k = some (i, false, ft) →
      fillLoop t ((k, v) :: post) vals
        = .ret (some ("Cannot set " ++ k ++ " field value"), vals)) ∧
    (∀ i ft vt, fieldByName (Type_fields t) k = some (i, true, ft) →
      reflect_TypeOf v = some vt → ft ≠ vt →
      fillLoop t ((k, v) :: post) vals
        = .ret (some "Provided value type didn't match obj field type", vals)) ∧
    (∀ i ft, fieldByName (Type_fields t) k = some (i, true, ft) →
      reflect_TypeOf v = none →
      fillLoop t ((k, v) :: post) vals
        = .panicked "reflect: call of reflect.Value.Type on zero Value") := by
  refine ⟨?_, ?_, ?_, ?_⟩
  · intro hf; simp [fillLoop, hf]
  · intro i ft hf; simp [fillLoop, hf]
  · intro i ft vt hf hv hne; simp [fillLoop, hf, hv, hne]
  · intro i ft hf hv; simp [fillLoop, hf, hv]

/-- C9 as the code has it, for a map `m` (its entries in iteration order, keys
distinct) and a pointer `s` to a struct without embedded fields.  With `s` not nil,
`FillStruct(m, s)` returns nil exactly when every key names an existing, settable
field whose type is the dynamic type of the mapped value; then every field named by
a key holds the mapped value and every other field is as before.  Otherwise there is
a first entry in iteration order that fails a check, and it decides the outcome:
"No such field: <key> in obj" when the key names no field, "Cannot set <key> field
value" when the field is not settable, "Provided value type didn't match obj field
type" when the value is not nil and its type differs, and a panic of `reflect` when
the value is nil.  With `s` a nil pointer the call returns nil for the empty map and
panics for every other map. -/
theorem FillStruct_spec (m : List (String × GoValue)) (e t : GoType) (vals : List GoValue)
    (hkind : Type_Kind e = Kind.Struct)
    (hwf : vals.length = Fields_length (Type_fields e))
    (hkeys : (m.map Prod.fst).Nodup) :
    ((∃ s2, FillStruct m (.ptr e (some (.struct t vals))) = .ret (none, s2)) ↔
      ∀ x ∈ m, entryOk e x) ∧
    (∀ s2, FillStruct m (.ptr e (some (.struct t vals))) = .ret (none, s2) →
      ∃ vals2, s2 = .ptr e (some (.struct t vals2)) ∧ vals2.length = vals.length ∧
        (∀ k v i a, (k, v) ∈ m → fieldByName (Type_fields e) k = some (i, a) →
          vals2[i]? = some v) ∧
        (∀ j, (∀ k v i a, (k, v) ∈ m → fieldByName (Type_fields e) k = some (i, a) → i ≠ j) →
          vals2[j]? = vals[j]?)) ∧
    ((¬ ∀ x ∈ m, entryOk e x) →
      ∃ pre k v post, m = pre ++ (k, v) :: post ∧ (∀ x ∈ pre, entryOk e x) ∧
        ((fieldByName (Type_fields e) k = none ∧
            ∃ s2, FillStruct m (.ptr e (some (.struct t vals)))
              = .ret (some ("No such field: " ++ k ++ " in obj"), s2)) ∨
          ((∃ i ft, fieldByName (Type_fields e) k = some (i, false, ft)) ∧
            ∃ s2, FillStruct m (.ptr e (some (.struct t vals)))
              = .ret (some ("Cannot set " ++ k ++ " field value"), s2)) ∨
          ((∃ i ft vt, fieldByName (Type_fields e) k = some (i, true, ft) ∧
              reflect_TypeOf v = some vt ∧ ft ≠ vt) ∧
            ∃ s2, FillStruct m (.ptr e (some (.struct t vals)))
              = .ret (some "Provided value type didn't match obj field type", s2)) ∨
          ((∃ i ft, fieldByName (Type_fields e) k = some (i, true, ft) ∧
              reflect_TypeOf v = none) ∧
            FillStruct m (.ptr e (some (.struct t vals)))
              = .panicked "reflect: call of reflect.Value.Type on zero Value"))) ∧
    (∀ pre k v post, m = pre ++ (k, v) :: post → (∀ x ∈ pre, entryOk e x) →
      (fieldByName (Type_fields e) k = none →
        ∃ s2, FillStruct m (.ptr e (some (.struct t vals)))
          = .ret (some ("No such field: " ++ k ++ " in obj"), s2)) ∧
      (∀ i ft, fieldByName (Type_fields e) k = some (i, false, ft) →
        ∃ s2, FillStruct m (.ptr e (some (.struct t vals)))
          = .ret (some ("Cannot set " ++ k ++ " field value"), s2)) ∧
      (∀ i ft vt, fieldByName (Type_fields e) k = some (i, true, ft) →
        reflect_TypeOf v = some vt → ft ≠ vt →
        ∃ s2, FillStruct m (.ptr e (some (.struct t vals)))
          = .ret (some "Provided value type didn't match obj field type", s2)) ∧
      (∀ i ft, fieldByName (Type_fields e) k = some (i, true, ft) →
        reflect_TypeOf v = none →
        FillStruct m (.ptr e (some (.struct t vals)))
          = .panicked "reflect: call of reflect.Value.Type on zero Value")) ∧
    (FillStruct [] (.ptr e none) = .ret (none, .ptr e none) ∧
      (m ≠ [] → FillStruct m (.ptr e none)
        = .panicked "reflect: call of reflect.Value.FieldByName on zero Value")) := by
  have heq := FillStruct_eq m e t vals hkind
  have hrej : ∀ pre k v post, m = pre ++ (k, v) :: post → (∀ x ∈ pre, entryOk e x) →
      ∃ vals1, FillStruct m (.ptr e (some (.struct t vals))) =
        match fillLoop e ((k, v) :: post) vals1 with
        | .panicked msg => .panicked msg
        | .ret (err, vals2) => .ret (err, .ptr e (some (.struct t vals2))) := by
    intro pre k v post hm hpre
    obtain ⟨vals1, h1⟩ := fillLoop_append e pre ((k, v) :: post) vals hpre
    exact ⟨vals1, by rw [heq, hm, h1]⟩
  have hall4 : ∀ pre k v post, m = pre ++ (k, v) :: post → (∀ x ∈ pre, entryOk e x) →
      (fieldByName (Type_fields e) k = none →
        ∃ s2, FillStruct m (.ptr e (some (.struct t vals)))
          = .ret (some ("No such field: " ++ k ++ " in obj"), s2)) ∧
      (∀ i ft, fieldByName (Type_fields e) k = some (i, false, ft) →
        ∃ s2, FillStruct m (.ptr e (some (.struct t vals)))
          = .ret (some ("Cannot set " ++ k ++ " field value"), s2)) ∧
      (∀ i ft vt, fieldByName (Type_fields e) k = some (i, true, ft) →
        reflect_TypeOf v = some vt → ft ≠ vt →
        ∃ s2, FillStruct m (.ptr e (some (.struct t vals)))
          = .ret (some "Provided value type didn't match obj field type", s2)) ∧
      (∀ i ft, fieldByName (Type_fields e) k = some (i, true, ft) →
        reflect_TypeOf v = none →
        FillStruct m (.ptr e (some (.struct t vals)))
          = .panicked "reflect: call of reflect.Value.Type on zero Value") := by
    intro pre k v post hm hpre
    obtain ⟨vals1, h1⟩ := hrej pre k v post hm hpre
    obtain ⟨r1, r2, r3, r4⟩ := fillLoop_reject e k v post vals1
    refine ⟨?_, ?_, ?_, ?_⟩
    · intro hf; exact ⟨_, by rw [h1, r1 hf]⟩
    · intro i ft hf; exact ⟨_, by rw [h1, r2 i ft hf]⟩
    · intro i ft vt hf hv hne; exact ⟨_, by rw [h1, r3 i ft vt hf hv hne]⟩
    · intro i ft hf hv; rw [h1, r4 i ft hf hv]
  refine ⟨⟨?_, ?_⟩, ?_, ?_, hall4, ?_, ?_⟩
  · rintro ⟨s2, hs⟩
    rw [heq] at hs
    cases hl : fillLoop e m vals with
    | panicked msg => simp [hl] at hs
    | ret p =>
      obtain ⟨err, vals2⟩ := p
      simp only [hl, Outcome.ret.injEq, Prod.mk.injEq] at hs
      obtain ⟨rfl, -⟩ := hs
      exact fillLoop_none_inv e m vals vals2 hl
  · intro hall
    obtain ⟨vals2, h1, -⟩ := fillLoop_ok e m vals hall
    exact ⟨_, by rw [heq, h1]⟩
  · intro s2 hs
    rw [heq] at hs
    cases hl : fillLoop e m vals with
    | panicked msg => simp [hl] at hs
    | ret p =>
      obtain ⟨err, vals2⟩ := p
      simp only [hl, Outcome.ret.injEq, Prod.mk.injEq] at hs
      obtain ⟨rfl, rfl⟩ := hs
      have hall := fillLoop_none_inv e m vals vals2 hl
      obtain ⟨vals3, h1, h2, h3, h4⟩ := fillLoop_ok e m vals hall
      rw [hl] at h1
      simp only [Outcome.ret.injEq, Prod.mk.injEq, true_and] at h1
      subst h1
      refine ⟨vals2, rfl, h2, ?_, h3⟩
      intro k v i a hm hf
      exact h4 hkeys k v i a hm hf (by rw [hwf]; exact fieldByName_lt _ k i a hf)
  · intro hnot
    rcases first_failing e m with hall | ⟨pre, k, v, post, hm, hpre, hbad⟩
    · exact absurd hall hnot
    · obtain ⟨c1, c2, c3, c4⟩ := hall4 pre k v post hm hpre
      refine ⟨pre, k, v, post, hm, hpre, ?_⟩
      rcases entry_cases e k v hbad with hf | ⟨i, ft, hf⟩ | ⟨i, ft, vt, hf, hv, hne⟩ |
        ⟨i, ft, hf, hv⟩
      · exact Or.inl ⟨hf, c1 hf⟩
      · exact Or.inr (Or.inl ⟨⟨i, ft, hf⟩, c2 i ft hf⟩)
      · exact Or.inr (Or.inr (Or.inl ⟨⟨i, ft, vt, hf, hv, hne⟩, c3 i ft vt hf hv hne⟩))
      · exact Or.inr (Or.inr (Or.inr ⟨⟨i, ft, hf, hv⟩, c4 i ft hf hv⟩))
  · simp [FillStruct, reflect_ValueOf, reflect_TypeOf, Type_Kind]
  · intro hne
    cases m with
    | nil => exact absurd rfl hne
    | cons x rest =>
      simp [FillStruct, reflect_ValueOf, reflect_TypeOf, Type_Kind, Value_Elem]

/-- Witness of the amended C9 on `&Person{Name: "ann", Age: 30, secret: "x"}`: the map
`{"Age": 31, "Name": "bob"}` fills both fields and leaves `secret`; a map with the
key "secret" after a good entry is rejected with the settability error. -/
theorem FillStruct_spec_witness :
    Type_Kind tPerson = Kind.Struct ∧
    [GoValue.str "ann", GoValue.int 30, GoValue.str "x"].length
      = Fields_length (Type_fields tPerson) ∧
    ([("Age", GoValue.int 31), ("Name", GoValue.str "bob")].map Prod.fst).Nodup ∧
    FillStruct [("Age", GoValue.int 31), ("Name", GoValue.str "bob")] personPtr
      = .ret (none, .ptr tPerson (some (.struct tPerson [.str "bob", .int 31, .str "x"]))) ∧
    (∀ x ∈ [("Age", GoValue.int 31), ("Name", GoValue.str "bob")], entryOk tPerson x) ∧
    ∃ s2, FillStruct [("Age", GoValue.int 31), ("secret", GoValue.str "y")] personPtr
      = .ret (some ("Cannot set " ++ "secret" ++ " field value"), s2) :=
  ⟨rfl, rfl, by decide, rfl,
   (FillStruct_spec [("Age", GoValue.int 31), ("Name", GoValue.str "bob")] tPerson tPerson
      [.str "ann", .int 30, .str "x"] rfl rfl (by decide)).1.1 ⟨_, rfl⟩,
   ((FillStruct_spec [("Age", GoValue.int 31), ("secret", GoValue.str "y")] tPerson tPerson
      [.str "ann", .int 30, .str "x"] rfl rfl (by decide)).2.2.2.1
      [("Age", GoValue.int 31)] "secret" (.str "y") [] rfl
      (fun x hx => by
        simp only [List.mem_singleton] at hx
        subst hx
        exact ⟨1, .int, rfl, rfl⟩)).2.1 2 .string rfl⟩

/-- Counterexample to C9 as stated.  On the nil pointer `(*Person)(nil)` the key
"Name" of the map `{"Name": "bob"}` names an existing, settable field of type string
and "bob" is a string, yet `FillStruct` does not return nil: `FieldByName` panics.
On `&Person{...}` the map `{"Name": nil}` maps an existing, settable field to a value
whose type is not the field's, yet no error is returned: `Type()` panics. -/
theorem FillStruct_nil_counterexample :
    (fieldByName (Type_fields tPerson) "Name" = some (0, true, GoType.string) ∧
      reflect_TypeOf (GoValue.str "bob") = some GoType.string ∧
      FillStruct [("Name", GoValue.str "bob")] (.ptr tPerson none)
        = .panicked "reflect: call of reflect.Value.FieldByName on zero Value") ∧
    (fieldByName (Type_fields tPerson) "Name" = some (0, true, GoType.string) ∧
      reflect_TypeOf GoValue.nil = none ∧
      FillStruct [("Name", GoValue.nil)] personPtr
        = .panicked "reflect: call of reflect.Value.Type on zero Value") :=
  ⟨⟨rfl, rfl, rfl⟩, ⟨rfl, rfl, rfl⟩⟩

end Tools
